import Mathlib

/-!
# edgeauth: token assembly and signing

A shallow embedding of `src/main.go` (`run`, `maybeEscape`, `computeHMAC`) and of the
Go standard-library functions it calls, followed by theorems about them.

Conventions.
* A Go `string` / `[]byte` is a list of byte values (`Bytes`); every byte is a natural
  number below 256 (`IsBytes`).
* `int64` values are integers; the one place where the program does `int64` arithmetic
  (`base + int64(d.Seconds())`) wraps explicitly (`wrapInt64`).
* The wall clock (`time.Now().UTC().Unix()`) and `time.ParseDuration` are inputs of the
  model (`Env`).
* `run` prints to standard output and returns an `error`; the model returns an `Outcome`
  recording both, together with the arguments of every `computeHMAC` call.
-/

namespace EdgeAuth

/-! ## Byte strings -/

/-- A Go string: its sequence of bytes. -/
abbrev Bytes := List Nat

/-- Every element is a byte value. -/
def IsBytes (s : Bytes) : Prop := ∀ b ∈ s, b < 256

instance (s : Bytes) : Decidable (IsBytes s) := by
  unfold IsBytes
  infer_instance

/-- The bytes of an ASCII string literal of the program. -/
def str (s : String) : Bytes := s.toList.map Char.toNat

/-- Go `strings.Join(elems, sep)`. -/
def stringsJoin (sep : Bytes) : List Bytes → Bytes
  | [] => []
  | [a] => a
  | a :: b :: rest => a ++ sep ++ stringsJoin sep (b :: rest)

/-- Decimal digits of a natural number, most significant first. -/
def natDecimal (n : Nat) : Bytes := (Nat.toDigits 10 n).map Char.toNat

/-- Go `fmt.Sprintf("%d", i)` for an `int64`. -/
def formatInt : Int → Bytes
  | Int.ofNat n => natDecimal n
  | Int.negSucc n => '-'.toNat :: natDecimal (n + 1)

/-- Reduction of an integer to the `int64` range (two's complement wraparound). -/
def wrapInt64 (i : Int) : Int := (i + 2 ^ 63) % 2 ^ 64 - 2 ^ 63

/-! ## encoding/hex -/

/-- Go `encoding/hex`: the value of a hex digit (`reverseHexTable`), `none` for a byte
that is not one. -/
def fromHexChar (c : Nat) : Option Nat :=
  if '0'.toNat ≤ c ∧ c ≤ '9'.toNat then some (c - '0'.toNat)
  else if 'a'.toNat ≤ c ∧ c ≤ 'f'.toNat then some (c - 'a'.toNat + 10)
  else if 'A'.toNat ≤ c ∧ c ≤ 'F'.toNat then some (c - 'A'.toNat + 10)
  else none

/-- The two errors of `hex.Decode`. -/
inductive HexError where
  | invalidByte (b : Nat)
  | errLength
  deriving DecidableEq, Repr

/-- Go `hex.DecodeString`: pairs of hex digits are decoded left to right; the first
byte that is not a hex digit gives `InvalidByteError`, an odd length `ErrLength`.
(The bytes Go returns next to a non-nil error are not represented: `run` ignores them.) -/
def hexDecodeString : Bytes → Except HexError Bytes
  | [] => .ok []
  | [p] =>
    match fromHexChar p with
    | none => .error (.invalidByte p)
    | some _ => .error .errLength
  | p :: q :: rest =>
    match fromHexChar p with
    | none => .error (.invalidByte p)
    | some a =>
      match fromHexChar q with
      | none => .error (.invalidByte q)
      | some b =>
        match hexDecodeString rest with
        | .error e => .error e
        | .ok bs => .ok ((a * 16 + b) :: bs)

/-- The table `"0123456789abcdef"` of `encoding/hex`. -/
def hextable : Bytes := str "0123456789abcdef"

/-- Go `hex.EncodeToString`: two lower-case hex digits per byte (`v >> 4`, `v & 0x0f`). -/
def hexEncodeToString : Bytes → Bytes
  | [] => []
  | v :: rest => hextable.getD (v / 16) 0 :: hextable.getD (v % 16) 0 :: hexEncodeToString rest

/-! ## net/url and strings -/

/-- Go `net/url.shouldEscape(c, encodeQueryComponent)`: letters, digits and `-_.~`
stay, every other byte is escaped. -/
def shouldEscape (c : Nat) : Bool :=
  if ('a'.toNat ≤ c ∧ c ≤ 'z'.toNat) ∨ ('A'.toNat ≤ c ∧ c ≤ 'Z'.toNat)
      ∨ ('0'.toNat ≤ c ∧ c ≤ '9'.toNat) then false
  else if c = '-'.toNat ∨ c = '_'.toNat ∨ c = '.'.toNat ∨ c = '~'.toNat then false
  else true

/-- The table `"0123456789ABCDEF"` of `net/url`. -/
def upperhex : Bytes := str "0123456789ABCDEF"

/-- Go `url.QueryEscape`: a space becomes `+`, a byte that `shouldEscape` becomes
`%XX` with upper-case hex digits (`upperhex[c>>4]`, `upperhex[c&15]`), other bytes stay. -/
def queryEscape : Bytes → Bytes
  | [] => []
  | c :: rest =>
    if c = ' '.toNat then '+'.toNat :: queryEscape rest
    else if shouldEscape c then
      '%'.toNat :: upperhex.getD (c / 16) 0 :: upperhex.getD (c % 16) 0 :: queryEscape rest
    else c :: queryEscape rest

/-- Lower-casing of one ASCII byte. -/
def toLowerByte (c : Nat) : Nat :=
  if 'A'.toNat ≤ c ∧ c ≤ 'Z'.toNat then c + ('a'.toNat - 'A'.toNat) else c

/-- Go `strings.ToLower` on an ASCII string (the program applies it only to the result
of `url.QueryEscape`, which is ASCII): `A`-`Z` become `a`-`z`. -/
def toLower (s : Bytes) : Bytes := s.map toLowerByte

/-- Source `maybeEscape` (main.go 114-119). -/
def maybeEscape (s : Bytes) (escape : Bool) : Bytes :=
  if !escape then s
  else toLower (queryEscape s)

/-! ## crypto/sha256, crypto/sha1, crypto/md5, crypto/hmac

The digests of the Go standard library, as FIPS 180-4, RFC 1321 and RFC 2104 define
them, on 32-bit words held as natural numbers below `2 ^ 32`. -/

/-- Addition of 32-bit words. -/
def add32 (a b : Nat) : Nat := (a + b) % 2 ^ 32

/-- Rotation of a 32-bit word to the left by `n` bits (`0 < n < 32`). -/
def rotl32 (x n : Nat) : Nat := ((x <<< n) ||| (x >>> (32 - n))) % 2 ^ 32

/-- Rotation of a 32-bit word to the right by `n` bits (`0 < n < 32`). -/
def rotr32 (x n : Nat) : Nat := ((x >>> n) ||| (x <<< (32 - n))) % 2 ^ 32

/-- Bitwise complement of a 32-bit word. -/
def not32 (x : Nat) : Nat := (2 ^ 32 - 1) ^^^ (x % 2 ^ 32)

/-- The four bytes of a 32-bit word, most significant first. -/
def be32Bytes (w : Nat) : Bytes := [w / 2 ^ 24 % 256, w / 2 ^ 16 % 256, w / 2 ^ 8 % 256, w % 256]

/-- The four bytes of a 32-bit word, least significant first. -/
def le32Bytes (w : Nat) : Bytes := [w % 256, w / 2 ^ 8 % 256, w / 2 ^ 16 % 256, w / 2 ^ 24 % 256]

/-- The eight bytes of a 64-bit length, most significant first. -/
def be64Bytes (n : Nat) : Bytes := be32Bytes (n / 2 ^ 32 % 2 ^ 32) ++ be32Bytes (n % 2 ^ 32)

/-- The eight bytes of a 64-bit length, least significant first. -/
def le64Bytes (n : Nat) : Bytes := le32Bytes (n % 2 ^ 32) ++ le32Bytes (n / 2 ^ 32 % 2 ^ 32)

/-- Big-endian 32-bit words of a byte string (whole words only). -/
def beWords : Bytes → List Nat
  | a :: b :: c :: d :: rest => (a * 2 ^ 24 + b * 2 ^ 16 + c * 2 ^ 8 + d) :: beWords rest
  | _ => []

/-- Little-endian 32-bit words of a byte string (whole words only). -/
def leWords : Bytes → List Nat
  | a :: b :: c :: d :: rest => (a + b * 2 ^ 8 + c * 2 ^ 16 + d * 2 ^ 24) :: leWords rest
  | _ => []

/-- Message padding shared by the three digests: a `0x80` byte, zero bytes up to 56
modulo 64, then the 64-bit length in bits as `lenBytes` renders it. -/
def padMessage (lenBytes : Nat → Bytes) (msg : Bytes) : Bytes :=
  msg ++ 0x80 :: List.replicate ((119 - msg.length % 64) % 64) 0 ++ lenBytes (8 * msg.length)

/-- The first `n` 64-byte blocks of a byte string. -/
def blocks64 : Nat → Bytes → List Bytes
  | 0, _ => []
  | n + 1, s => s.take 64 :: blocks64 n (s.drop 64)

/-- The 64-byte blocks of a padded message. -/
def paddedBlocks (lenBytes : Nat → Bytes) (msg : Bytes) : List Bytes :=
  let p := padMessage lenBytes msg
  blocks64 (p.length / 64) p

/-- The round constants of SHA-256. -/
def sha256K : List Nat :=
  [0x428a2f98, 0x71374491, 0xb5c0fbcf, 0xe9b5dba5, 0x3956c25b, 0x59f111f1, 0x923f82a4, 0xab1c5ed5,
   0xd807aa98, 0x12835b01, 0x243185be, 0x550c7dc3, 0x72be5d74, 0x80deb1fe, 0x9bdc06a7, 0xc19bf174,
   0xe49b69c1, 0xefbe4786, 0x0fc19dc6, 0x240ca1cc, 0x2de92c6f, 0x4a7484aa, 0x5cb0a9dc, 0x76f988da,
   0x983e5152, 0xa831c66d, 0xb00327c8, 0xbf597fc7, 0xc6e00bf3, 0xd5a79147, 0x06ca6351, 0x14292967,
   0x27b70a85, 0x2e1b2138, 0x4d2c6dfc, 0x53380d13, 0x650a7354, 0x766a0abb, 0x81c2c92e, 0x92722c85,
   0xa2bfe8a1, 0xa81a664b, 0xc24b8b70, 0xc76c51a3, 0xd192e819, 0xd6990624, 0xf40e3585, 0x106aa070,
   0x19a4c116, 0x1e376c08, 0x2748774c, 0x34b0bcb5, 0x391c0cb3, 0x4ed8aa4a, 0x5b9cca4f, 0x682e6ff3,
   0x748f82ee, 0x78a5636f, 0x84c87814, 0x8cc70208, 0x90befffa, 0xa4506ceb, 0xbef9a3f7, 0xc67178f2]

/-- Working state of SHA-256. -/
structure Sha256State where
  a : Nat
  b : Nat
  c : Nat
  d : Nat
  e : Nat
  f : Nat
  g : Nat
  h : Nat
  deriving DecidableEq, Repr

/-- Initial hash value of SHA-256. -/
def sha256Init : Sha256State :=
  ⟨0x6a09e667, 0xbb67ae85, 0x3c6ef372, 0xa54ff53a, 0x510e527f, 0x9b05688c, 0x1f83d9ab, 0x5be0cd19⟩

/-- Message schedule of SHA-256, newest word first: `n` more words after those of `r`. -/
def sha256Schedule : Nat → List Nat → List Nat
  | 0, r => r
  | n + 1, r =>
    let w2 := r.getD 1 0
    let w15 := r.getD 14 0
    let s0 := rotr32 w15 7 ^^^ rotr32 w15 18 ^^^ (w15 >>> 3)
    let s1 := rotr32 w2 17 ^^^ rotr32 w2 19 ^^^ (w2 >>> 10)
    sha256Schedule n (add32 (add32 s1 (r.getD 6 0)) (add32 s0 (r.getD 15 0)) :: r)

/-- One round of the SHA-256 compression function with constant-plus-word `kw`. -/
def sha256Round (s : Sha256State) (kw : Nat × Nat) : Sha256State :=
  let bigS1 := rotr32 s.e 6 ^^^ rotr32 s.e 11 ^^^ rotr32 s.e 25
  let ch := (s.e &&& s.f) ^^^ (not32 s.e &&& s.g)
  let t1 := add32 (add32 (add32 s.h bigS1) (add32 ch kw.1)) kw.2
  let bigS0 := rotr32 s.a 2 ^^^ rotr32 s.a 13 ^^^ rotr32 s.a 22
  let maj := (s.a &&& s.b) ^^^ (s.a &&& s.c) ^^^ (s.b &&& s.c)
  let t2 := add32 bigS0 maj
  ⟨add32 t1 t2, s.a, s.b, s.c, add32 s.d t1, s.e, s.f, s.g⟩

/-- The SHA-256 compression function on one 64-byte block. -/
def sha256Block (s : Sha256State) (block : Bytes) : Sha256State :=
  let w := (sha256Schedule 48 (beWords block).reverse).reverse
  let t := (sha256K.zip w).foldl sha256Round s
  ⟨add32 s.a t.a, add32 s.b t.b, add32 s.c t.c, add32 s.d t.d,
   add32 s.e t.e, add32 s.f t.f, add32 s.g t.g, add32 s.h t.h⟩

/-- Go `sha256.Sum256`: the 32-byte SHA-256 digest. -/
def sha256Sum (msg : Bytes) : Bytes :=
  let s := (paddedBlocks be64Bytes msg).foldl sha256Block sha256Init
  be32Bytes s.a ++ be32Bytes s.b ++ be32Bytes s.c ++ be32Bytes s.d
    ++ be32Bytes s.e ++ be32Bytes s.f ++ be32Bytes s.g ++ be32Bytes s.h

/-- Working state of SHA-1. -/
structure Sha1State where
  a : Nat
  b : Nat
  c : Nat
  d : Nat
  e : Nat
  deriving DecidableEq, Repr

/-- Initial hash value of SHA-1. -/
def sha1Init : Sha1State := ⟨0x67452301, 0xefcdab89, 0x98badcfe, 0x10325476, 0xc3d2e1f0⟩

/-- Message schedule of SHA-1, newest word first: `n` more words after those of `r`. -/
def sha1Schedule : Nat → List Nat → List Nat
  | 0, r => r
  | n + 1, r =>
    sha1Schedule n
      (rotl32 (r.getD 2 0 ^^^ r.getD 7 0 ^^^ r.getD 13 0 ^^^ r.getD 15 0) 1 :: r)

/-- One round of SHA-1: `tw` is the round number and the schedule word. -/
def sha1Round (s : Sha1State) (tw : Nat × Nat) : Sha1State :=
  let t := tw.1
  let f :=
    if t < 20 then (s.b &&& s.c) ||| (not32 s.b &&& s.d)
    else if t < 40 then s.b ^^^ s.c ^^^ s.d
    else if t < 60 then (s.b &&& s.c) ||| (s.b &&& s.d) ||| (s.c &&& s.d)
    else s.b ^^^ s.c ^^^ s.d
  let k :=
    if t < 20 then 0x5a827999 else if t < 40 then 0x6ed9eba1
    else if t < 60 then 0x8f1bbcdc else 0xca62c1d6
  let tmp := add32 (add32 (add32 (rotl32 s.a 5) f) (add32 s.e k)) tw.2
  ⟨tmp, s.a, rotl32 s.b 30, s.c, s.d⟩

/-- The SHA-1 compression function on one 64-byte block. -/
def sha1Block (s : Sha1State) (block : Bytes) : Sha1State :=
  let w := (sha1Schedule 64 (beWords block).reverse).reverse
  let t := ((List.range 80).zip w).foldl sha1Round s
  ⟨add32 s.a t.a, add32 s.b t.b, add32 s.c t.c, add32 s.d t.d, add32 s.e t.e⟩

/-- Go `sha1.Sum`: the 20-byte SHA-1 digest. -/
def sha1Sum (msg : Bytes) : Bytes :=
  let s := (paddedBlocks be64Bytes msg).foldl sha1Block sha1Init
  be32Bytes s.a ++ be32Bytes s.b ++ be32Bytes s.c ++ be32Bytes s.d ++ be32Bytes s.e

/-- The sine-derived constants of MD5. -/
def md5T : List Nat :=
  [0xd76aa478, 0xe8c7b756, 0x242070db, 0xc1bdceee, 0xf57c0faf, 0x4787c62a, 0xa8304613, 0xfd469501,
   0x698098d8, 0x8b44f7af, 0xffff5bb1, 0x895cd7be, 0x6b901122, 0xfd987193, 0xa679438e, 0x49b40821,
   0xf61e2562, 0xc040b340, 0x265e5a51, 0xe9b6c7aa, 0xd62f105d, 0x02441453, 0xd8a1e681, 0xe7d3fbc8,
   0x21e1cde6, 0xc33707d6, 0xf4d50d87, 0x455a14ed, 0xa9e3e905, 0xfcefa3f8, 0x676f02d9, 0x8d2a4c8a,
   0xfffa3942, 0x8771f681, 0x6d9d6122, 0xfde5380c, 0xa4beea44, 0x4bdecfa9, 0xf6bb4b60, 0xbebfbc70,
   0x289b7ec6, 0xeaa127fa, 0xd4ef3085, 0x04881d05, 0xd9d4d039, 0xe6db99e5, 0x1fa27cf8, 0xc4ac5665,
   0xf4292244, 0x432aff97, 0xab9423a7, 0xfc93a039, 0x655b59c3, 0x8f0ccc92, 0xffeff47d, 0x85845dd1,
   0x6fa87e4f, 0xfe2ce6e0, 0xa3014314, 0x4e0811a1, 0xf7537e82, 0xbd3af235, 0x2ad7d2bb, 0xeb86d391]

/-- The per-round rotation amounts of MD5. -/
def md5S : List Nat :=
  [7, 12, 17, 22, 7, 12, 17, 22, 7, 12, 17, 22, 7, 12, 17, 22,
   5, 9, 14, 20, 5, 9, 14, 20, 5, 9, 14, 20, 5, 9, 14, 20,
   4, 11, 16, 23, 4, 11, 16, 23, 4, 11, 16, 23, 4, 11, 16, 23,
   6, 10, 15, 21, 6, 10, 15, 21, 6, 10, 15, 21, 6, 10, 15, 21]

/-- Working state of MD5. -/
structure Md5State where
  a : Nat
  b : Nat
  c : Nat
  d : Nat
  deriving DecidableEq, Repr

/-- Initial state of MD5. -/
def md5Init : Md5State := ⟨0x67452301, 0xefcdab89, 0x98badcfe, 0x10325476⟩

/-- One step of MD5 on the block words `m`: `i` is the step number. -/
def md5Round (m : List Nat) (s : Md5State) (i : Nat) : Md5State :=
  let f :=
    if i < 16 then (s.b &&& s.c) ||| (not32 s.b &&& s.d)
    else if i < 32 then (s.d &&& s.b) ||| (not32 s.d &&& s.c)
    else if i < 48 then s.b ^^^ s.c ^^^ s.d
    else s.c ^^^ (s.b ||| not32 s.d)
  let g :=
    if i < 16 then i
    else if i < 32 then (5 * i + 1) % 16
    else if i < 48 then (3 * i + 5) % 16
    else (7 * i) % 16
  let x := add32 (add32 s.a f) (add32 (md5T.getD i 0) (m.getD g 0))
  ⟨s.d, add32 s.b (rotl32 x (md5S.getD i 0)), s.b, s.c⟩

/-- The MD5 compression function on one 64-byte block. -/
def md5Block (s : Md5State) (block : Bytes) : Md5State :=
  let t := (List.range 64).foldl (md5Round (leWords block)) s
  ⟨add32 s.a t.a, add32 s.b t.b, add32 s.c t.c, add32 s.d t.d⟩

/-- Go `md5.Sum`: the 16-byte MD5 digest. -/
def md5Sum (msg : Bytes) : Bytes :=
  let s := (paddedBlocks le64Bytes msg).foldl md5Block md5Init
  le32Bytes s.a ++ le32Bytes s.b ++ le32Bytes s.c ++ le32Bytes s.d

/-- Exclusive or of every byte with `pad`. -/
def xorPad (pad : Nat) (s : Bytes) : Bytes := s.map (fun b => b ^^^ pad)

/-- Go `crypto/hmac` (`hmac.New(h, key)`, `Write(data)`, `Sum(nil)`) for a digest `h`
of block size 64: a key longer than a block is hashed first, the key is padded with
zero bytes to a block, and the result is `h (opad ++ h (ipad ++ data))`. -/
def hmacSum (h : Bytes → Bytes) (key data : Bytes) : Bytes :=
  let k := if key.length > 64 then h key else key
  let k := k ++ List.replicate (64 - k.length) 0
  h (xorPad 0x5c k ++ h (xorPad 0x36 k ++ data))

/-- The digest selected by an algorithm name, as the `switch` of `computeHMAC` does. -/
def newHash (a : Bytes) : Bytes → Bytes :=
  if a = str "sha256" then sha256Sum
  else if a = str "sha1" then sha1Sum
  else if a = str "md5" then md5Sum
  else sha256Sum

/-- Source `computeHMAC` (main.go 121-136). -/
def computeHMAC (a : Bytes) (key : Bytes) (data : Bytes) : Bytes :=
  hexEncodeToString (hmacSum (newHash a) key data)

/-! ## time -/

/-- The integer nearest to `n / d`, ties to the even one. -/
def roundHalfEven (n d : Nat) : Nat :=
  let q := n / d
  let r := n % d
  if 2 * r < d then q
  else if 2 * r > d then q + 1
  else if q % 2 = 0 then q
  else q + 1

/-- Integer part of the binary logarithm, by at most `fuel` halvings. -/
def log2Fuel : Nat → Nat → Nat
  | 0, _ => 0
  | fuel + 1, n => if n < 2 then 0 else log2Fuel fuel (n / 2) + 1

/-- Integer part of the binary logarithm of `n` (`0` for `n = 0`). -/
def ilog2 (n : Nat) : Nat := log2Fuel n n

/-- The IEEE-754 binary64 value nearest to the positive rational `n / d` (round to
nearest, ties to even; normal range), as a fraction `(numerator, denominator)`: with
`e` the integer part of `log2 (n / d)`, the quotient is rounded to a multiple of
`2 ^ (e - 52)`. -/
def float64Round (n d : Nat) : Nat × Nat :=
  if n = 0 then (0, 1)
  else
    let a := ilog2 n
    let b := ilog2 d
    let e : Int := (a : Int) - (b : Int) - (if d * 2 ^ (a - b) ≤ n * 2 ^ (b - a) then 0 else 1)
    let s : Int := 52 - e
    if 0 ≤ s then (roundHalfEven (n * 2 ^ s.toNat) d, 2 ^ s.toNat)
    else (roundHalfEven n (d * 2 ^ (-s).toNat) * 2 ^ (-s).toNat, 1)

/-- Go `int64(d.Seconds())` for a duration of `n ≥ 0` nanoseconds:
`Seconds` is `float64(sec) + float64(nsec)/1e9` with `sec = d / Second` and
`nsec = d % Second`, every operation rounded to binary64; the conversion truncates. -/
def secondsOfNat (n : Nat) : Nat :=
  let sec := float64Round (n / 10 ^ 9) 1
  let frac := float64Round (n % 10 ^ 9) (10 ^ 9)
  let sum := float64Round (sec.1 * frac.2 + frac.1 * sec.2) (sec.2 * frac.2)
  sum.1 / sum.2

/-- Go `int64(d.Seconds())` for a duration of `d` nanoseconds (a negative duration
gives the negated result: division, remainder, rounding and truncation are symmetric). -/
def durationSeconds (d : Int) : Int :=
  if 0 ≤ d then (secondsOfNat d.toNat : Int) else -(secondsOfNat (-d).toNat : Int)

/-- What the program reads from outside its arguments: the wall clock and the
standard library's duration parser. -/
structure Env where
  /-- Value of `time.Now().UTC().Unix()`. -/
  now : Int
  /-- Go `time.ParseDuration`: a duration in nanoseconds, or the text of its error. -/
  parseDuration : Bytes → Except String Int

/-! ## main.go -/

/-- Source `options` (main.go 19-34). -/
structure options where
  Key : Bytes
  Duration : Bytes
  ACL : Bytes
  URL : Bytes
  IP : Bytes
  SessionID : Bytes
  Payload : Bytes
  Salt : Bytes
  StartTime : Int
  ExpireTime : Int
  Algorithm : Bytes
  FieldDelim : Bytes
  ACLDelim : Bytes
  EscapeEarly : Bool
  deriving DecidableEq, Repr

/-- The errors `run` returns. -/
inductive RunError where
  | modeConflict
  | invalidKey
  | invalidDuration (detail : String)
  | missingExpiry
  | nonPositiveExpiry
  | alreadyExpired
  deriving DecidableEq, Repr

/-- The text of each error (the `fmt.Errorf` calls of `run`). -/
def RunError.message : RunError → String
  | .modeConflict => "specify either --acl or --url exclusively"
  | .invalidKey => "invalid --key: must be hex"
  | .invalidDuration detail => "invalid --duration: " ++ detail
  | .missingExpiry => "either --exp or --duration is required"
  | .nonPositiveExpiry => "--exp must be > 0"
  | .alreadyExpired => "token already expired: exp <= st"

/-- What one call of `run` does: the error it returns (`none` for `nil`), the operand of
every `fmt.Println` call, and the arguments of every `computeHMAC` call, in order. -/
structure Outcome where
  err : Option RunError
  printed : List Bytes
  hmacCalls : List (Bytes × Bytes × Bytes)
  deriving DecidableEq, Repr

/-- An early `return fmt.Errorf(...)`: nothing printed, no digest computed. -/
def Outcome.fail (e : RunError) : Outcome := ⟨some e, [], []⟩

/-- Source `run`, lines 46-52: `stPtr` is set exactly when `StartTime > 0`. -/
def startPtr (opts : options) : Option Int :=
  if opts.StartTime > 0 then some opts.StartTime else none

/-- Source `run`, lines 54-71: the `switch` that resolves `exp`. -/
def resolveExp (env : Env) (opts : options) : Except RunError Int :=
  let base := env.now
  if opts.ExpireTime > 0 then .ok opts.ExpireTime
  else if opts.Duration ≠ [] then
    match env.parseDuration opts.Duration with
    | .error e => .error (.invalidDuration e)
    | .ok d =>
      if d ≤ 0 then .error (.invalidDuration "<nil>")
      else
        let base := match startPtr opts with
          | some st => st
          | none => base
        .ok (wrapInt64 (base + durationSeconds d))
  else .error .missingExpiry

/-- Source `run`, lines 79-97: the fields of the token before the digest. -/
def tokenFields (opts : options) (exp : Int) : List Bytes :=
  (if opts.IP ≠ [] then [str "ip=" ++ maybeEscape opts.IP opts.EscapeEarly] else [])
  ++ (match startPtr opts with
      | some st => [str "st=" ++ formatInt st]
      | none => [])
  ++ [str "exp=" ++ formatInt exp]
  ++ (if ¬ (opts.URL ≠ []) then [str "acl=" ++ opts.ACL] else [])
  ++ (if opts.SessionID ≠ [] then [str "id=" ++ maybeEscape opts.SessionID opts.EscapeEarly]
      else [])
  ++ (if opts.Payload ≠ [] then [str "data=" ++ maybeEscape opts.Payload opts.EscapeEarly]
      else [])

/-- Source `run`, lines 99-105: the fields the digest covers. -/
def hashFields (opts : options) (exp : Int) : List Bytes :=
  tokenFields opts exp
  ++ (if opts.URL ≠ [] then [str "url=" ++ maybeEscape opts.URL opts.EscapeEarly] else [])
  ++ (if opts.Salt ≠ [] then [str "salt=" ++ opts.Salt] else [])

/-- Source `run`, line 107: the string passed to `computeHMAC`. -/
def signingInput (opts : options) (exp : Int) : Bytes :=
  stringsJoin opts.FieldDelim (hashFields opts exp)

/-- Source `run`, line 108: the final value of `tokenFields`, the `hmac` field appended. -/
def emittedFields (opts : options) (keyBytes : Bytes) (exp : Int) : List Bytes :=
  tokenFields opts exp
  ++ [str "hmac=" ++ computeHMAC opts.Algorithm keyBytes (signingInput opts exp)]

/-- Source `run` (main.go 36-112). -/
def run (env : Env) (opts : options) : Outcome :=
  if (opts.ACL = [] ∧ opts.URL = []) ∨ (opts.ACL ≠ [] ∧ opts.URL ≠ []) then
    Outcome.fail .modeConflict
  else
    match hexDecodeString opts.Key with
    | .error _ => Outcome.fail .invalidKey
    | .ok keyBytes =>
      if keyBytes.length = 0 then Outcome.fail .invalidKey
      else
        match resolveExp env opts with
        | .error e => Outcome.fail e
        | .ok exp =>
          if exp ≤ 0 then Outcome.fail .nonPositiveExpiry
          else if (startPtr opts).any (fun st => exp ≤ st) then Outcome.fail .alreadyExpired
          else
            { err := none
              printed := [stringsJoin opts.FieldDelim (emittedFields opts keyBytes exp)]
              hmacCalls := [(opts.Algorithm, keyBytes, signingInput opts exp)] }

/-! ## Definitions used to state the properties -/

/-- The key of a field: its text before the first `=`. -/
def fieldKey (f : Bytes) : Bytes := f.takeWhile (fun c => c ≠ '='.toNat)

/-- The outcome of a successful `run`. -/
def Outcome.success (opts : options) (keyBytes : Bytes) (exp : Int) : Outcome :=
  { err := none
    printed := [stringsJoin opts.FieldDelim (emittedFields opts keyBytes exp)]
    hmacCalls := [(opts.Algorithm, keyBytes, signingInput opts exp)] }

/-- The checks `run` makes before it assembles the token, with the decoded key and the
resolved expiration they produce. -/
def Valid (env : Env) (opts : options) (keyBytes : Bytes) (exp : Int) : Prop :=
  ¬ ((opts.ACL = [] ∧ opts.URL = []) ∨ (opts.ACL ≠ [] ∧ opts.URL ≠ []))
  ∧ hexDecodeString opts.Key = .ok keyBytes ∧ keyBytes ≠ []
  ∧ resolveExp env opts = .ok exp ∧ 0 < exp
  ∧ (0 < opts.StartTime → opts.StartTime < exp)

/-- The signing inputs of a run: the data argument of each `computeHMAC` call. -/
def signingInputs (o : Outcome) : List Bytes := o.hmacCalls.map (fun c => c.2.2)

/-- The part of the signing input that the url field contributes. -/
def urlPart (opts : options) : Bytes :=
  if opts.URL ≠ [] then
    opts.FieldDelim ++ (str "url=" ++ maybeEscape opts.URL opts.EscapeEarly)
  else []

/-- The part of the signing input that the salt field contributes. -/
def saltPart (opts : options) : Bytes :=
  if opts.Salt ≠ [] then opts.FieldDelim ++ (str "salt=" ++ opts.Salt) else []

/-- A hex digit: one of `0`-`9`, `a`-`f`, `A`-`F`. -/
def IsHexDigit (c : Nat) : Prop :=
  ('0'.toNat ≤ c ∧ c ≤ '9'.toNat) ∨ ('a'.toNat ≤ c ∧ c ≤ 'f'.toNat)
  ∨ ('A'.toNat ≤ c ∧ c ≤ 'F'.toNat)

/-- The expiration the program resolves, in the words of the specification:
ExpireTime when it is positive; otherwise, when Duration parses to a positive duration,
the start time if set (else the clock) plus the duration's seconds, in `int64`. -/
def resolvedExpiration (env : Env) (opts : options) : Option Int :=
  if 0 < opts.ExpireTime then some opts.ExpireTime
  else
    match env.parseDuration opts.Duration with
    | .ok d =>
      if 0 < d then
        some (wrapInt64 ((if 0 < opts.StartTime then opts.StartTime else env.now)
          + durationSeconds d))
      else none
    | .error _ => none

/-- The keys a token can carry, in the order `run` emits them. -/
def keyOrder : List Bytes :=
  [str "ip", str "st", str "exp", str "acl", str "id", str "data", str "hmac"]

/-- A byte that `maybeEscape s true` can contain: a lower-case letter, a digit or one
of `- _ . ~ % +`. -/
def IsEscapedByte (c : Nat) : Prop :=
  ('a'.toNat ≤ c ∧ c ≤ 'z'.toNat) ∨ ('0'.toNat ≤ c ∧ c ≤ '9'.toNat)
  ∨ c = '-'.toNat ∨ c = '_'.toNat ∨ c = '.'.toNat ∨ c = '~'.toNat
  ∨ c = '%'.toNat ∨ c = '+'.toNat

/-- An upper-case ASCII letter. -/
def IsUpper (c : Nat) : Prop := 'A'.toNat ≤ c ∧ c ≤ 'Z'.toNat

/-- A lower-case hex digit: one of `0`-`9`, `a`-`f`. -/
def IsLowerHexDigit (c : Nat) : Prop :=
  ('0'.toNat ≤ c ∧ c ≤ '9'.toNat) ∨ ('a'.toNat ≤ c ∧ c ≤ 'f'.toNat)

/-- The options in which the salt has been moved into the payload: Payload becomes
`Payload ++ FieldDelim ++ "salt=" ++ Salt` and Salt becomes empty. -/
def saltInPayload (opts : options) : options :=
  { opts with
    Payload := opts.Payload ++ opts.FieldDelim ++ (str "salt=" ++ opts.Salt)
    Salt := [] }

/-- The largest `int64`. -/
def maxInt64 : Int := 2 ^ 63 - 1

/-! ## Sample inputs -/

/-- A clock reading and a duration parser that rejects every string: enough to run
the program on options that give an explicit expiration. -/
def sampleEnv : Env := ⟨1700000000, fun _ => .error "time: invalid duration"⟩

/-- The options `--key=deadbeef --acl=/* --exp=100` with the defaults of the flags. -/
def aclOpts : options :=
  { Key := str "deadbeef", Duration := [], ACL := str "/*", URL := [], IP := [],
    SessionID := [], Payload := [], Salt := [], StartTime := 0, ExpireTime := 100,
    Algorithm := str "sha256", FieldDelim := str "~", ACLDelim := str "!",
    EscapeEarly := false }

/-- A clock reading and a duration parser that accepts the one string `300s`, as 300
seconds in nanoseconds. -/
def durationEnv : Env :=
  ⟨1700000000, fun s =>
    if s = str "300s" then .ok 300000000000 else .error "time: invalid duration"⟩

/-- The options `--key=deadbeef --acl=/* --duration=300s`. -/
def durationOpts : options := { aclOpts with ExpireTime := 0, Duration := str "300s" }

/-- The options `--key=deadbeef --url=/path/file --exp=100 --salt=xyz`. -/
def urlOpts : options :=
  { aclOpts with ACL := [], URL := str "/path/file", Salt := str "xyz" }

/-- The options of `aclOpts` with `--start=50 --exp=-1`. -/
def negativeExpOpts : options := { aclOpts with StartTime := 50, ExpireTime := -1 }

/-- The options of `aclOpts` with `--start=50 --exp=50`. -/
def expiredOpts : options := { aclOpts with StartTime := 50, ExpireTime := 50 }

/-- The options `--key=deadbeef --url=/A --exp=100 --salt=xyz --escape-early`. -/
def upperUrlOpts : options := { urlOpts with URL := str "/A", EscapeEarly := true }

/-- The options of `upperUrlOpts` with `--url=/a`. -/
def lowerUrlOpts : options := { upperUrlOpts with URL := str "/a" }

/-- The options of `aclOpts` with the odd-length key `abc`. -/
def oddKeyOpts : options := { aclOpts with Key := str "abc" }

/-- The options `--key=deadbeef --acl=/* --duration=300s --start=1000`. -/
def startDurationOpts : options := { durationOpts with StartTime := 1000 }

/-- The options `--key=deadbeef --acl=/* --exp=100 --start=-5`. -/
def negativeStartOpts : options := { aclOpts with StartTime := -5 }

/-- The options `--key=deadbeef --acl=/* --exp=100 --data=x --salt=xyz`. -/
def payloadSaltOpts : options := { aclOpts with Payload := str "x", Salt := str "xyz" }

/-- The options `--key=deadbeef --acl=/* --duration=300s --start=9223372036854775807`. -/
def overflowOpts : options := { durationOpts with StartTime := 9223372036854775807 }

/-- The options `--key=deadbeef --acl=/* --exp=-1 --duration=300s
--start=9223372036854775807`. -/
def negativeExpOverflowOpts : options := { overflowOpts with ExpireTime := -1 }

/-- A clock reading and a duration parser that accepts the one string
`20000000.999999999s`, as 20000000999999999 nanoseconds. -/
def roundingEnv : Env :=
  ⟨1700000000, fun s =>
    if s = str "20000000.999999999s" then .ok 20000000999999999
    else .error "time: invalid duration"⟩

/-- The options `--key=deadbeef --acl=/* --duration=20000000.999999999s --start=1000`. -/
def roundingOpts : options :=
  { aclOpts with ExpireTime := 0, Duration := str "20000000.999999999s", StartTime := 1000 }

/-! ## Basic facts about the embedding -/

theorem stringsJoin_append_singleton (sep a : Bytes) (l : List Bytes) (h : l ≠ []) :
    stringsJoin sep (l ++ [a]) = stringsJoin sep l ++ sep ++ a := by
  induction l with
  | nil => exact absurd rfl h
  | cons x xs ih =>
    cases xs with
    | nil => simp [stringsJoin]
    | cons y ys =>
      have h2 : stringsJoin sep (y :: (ys ++ [a])) = stringsJoin sep (y :: ys) ++ sep ++ a :=
        ih (by simp)
      show x ++ sep ++ stringsJoin sep (y :: (ys ++ [a]))
        = x ++ sep ++ stringsJoin sep (y :: ys) ++ sep ++ a
      rw [h2]
      simp [List.append_assoc]

theorem startPtr_eq_some (opts : options) (h : 0 < opts.StartTime) :
    startPtr opts = some opts.StartTime := by
  simp [startPtr, h]

theorem startPtr_eq_none (opts : options) (h : opts.StartTime ≤ 0) :
    startPtr opts = none := by
  simp [startPtr, not_lt.mpr h]

theorem startPtr_any (opts : options) (exp : Int) :
    (startPtr opts).any (fun st => decide (exp ≤ st)) = true
      ↔ 0 < opts.StartTime ∧ exp ≤ opts.StartTime := by
  by_cases h : 0 < opts.StartTime
  · simp [startPtr, h]
  · simp [startPtr, h]

theorem tokenFields_ne_nil (opts : options) (exp : Int) : tokenFields opts exp ≠ [] := by
  simp [tokenFields]

theorem run_of_valid (env : Env) (opts : options) (keyBytes : Bytes) (exp : Int)
    (h : Valid env opts keyBytes exp) : run env opts = Outcome.success opts keyBytes exp := by
  obtain ⟨hmode, hkey, hlen, hexp, hpos, hst⟩ := h
  have hany : ¬ ((startPtr opts).any (fun st => decide (exp ≤ st)) = true) := by
    rw [startPtr_any]
    rintro ⟨h1, h2⟩
    have := hst h1
    omega
  have hlen' : ¬ keyBytes.length = 0 := by
    simpa [List.length_eq_zero] using hlen
  unfold run
  rw [if_neg hmode]
  simp only [hkey, hexp]
  rw [if_neg hlen', if_neg (not_le.mpr hpos), if_neg hany]
  rfl

theorem resolveExp_error (env : Env) (opts : options) (e : RunError)
    (h : resolveExp env opts = .error e) :
    e = .missingExpiry ∨ ∃ detail, e = .invalidDuration detail := by
  unfold resolveExp at h
  simp only at h
  split at h
  · cases h
  · split at h
    · split at h
      · cases h; exact Or.inr ⟨_, rfl⟩
      · split at h
        · cases h; exact Or.inr ⟨_, rfl⟩
        · cases h
    · cases h; exact Or.inl rfl

theorem run_cases (env : Env) (opts : options) :
    (∃ keyBytes exp, Valid env opts keyBytes exp
        ∧ run env opts = Outcome.success opts keyBytes exp)
    ∨ (∃ e, run env opts = Outcome.fail e) := by
  by_cases hmode : (opts.ACL = [] ∧ opts.URL = []) ∨ (opts.ACL ≠ [] ∧ opts.URL ≠ [])
  · right; exact ⟨.modeConflict, by unfold run; rw [if_pos hmode]⟩
  · cases hkey : hexDecodeString opts.Key with
    | error e =>
      right
      exact ⟨.invalidKey, by unfold run; rw [if_neg hmode]; simp only [hkey]⟩
    | ok keyBytes =>
      by_cases hlen : keyBytes.length = 0
      · right
        exact ⟨.invalidKey, by
          unfold run; rw [if_neg hmode]; simp only [hkey]; rw [if_pos hlen]⟩
      · cases hexp : resolveExp env opts with
        | error e =>
          right
          exact ⟨e, by unfold run; rw [if_neg hmode]; simp only [hkey, hexp]; rw [if_neg hlen]⟩
        | ok exp =>
          by_cases hpos : exp ≤ 0
          · right
            exact ⟨.nonPositiveExpiry, by
              unfold run; rw [if_neg hmode]; simp only [hkey, hexp]
              rw [if_neg hlen, if_pos hpos]⟩
          · by_cases hany : (startPtr opts).any (fun st => decide (exp ≤ st)) = true
            · right
              exact ⟨.alreadyExpired, by
                unfold run; rw [if_neg hmode]; simp only [hkey, hexp]
                rw [if_neg hlen, if_neg hpos, if_pos hany]⟩
            · left
              have hv : Valid env opts keyBytes exp := by
                refine ⟨hmode, hkey, ?_, hexp, not_le.mp hpos, ?_⟩
                · intro h; exact hlen (by simp [h])
                · intro h1
                  by_contra h2
                  exact hany ((startPtr_any opts exp).mpr ⟨h1, not_lt.mp h2⟩)
              exact ⟨keyBytes, exp, hv, run_of_valid env opts keyBytes exp hv⟩

theorem run_success_inv (env : Env) (opts : options) (h : (run env opts).err = none) :
    ∃ keyBytes exp, Valid env opts keyBytes exp
      ∧ run env opts = Outcome.success opts keyBytes exp := by
  rcases run_cases env opts with h1 | ⟨e, he⟩
  · exact h1
  · rw [he] at h; cases h

theorem signingInput_eq (opts : options) (exp : Int) :
    signingInput opts exp
      = stringsJoin opts.FieldDelim (tokenFields opts exp) ++ urlPart opts ++ saltPart opts := by
  have hT := tokenFields_ne_nil opts exp
  unfold signingInput hashFields urlPart saltPart
  by_cases hu : opts.URL = [] <;> by_cases hs : opts.Salt = []
  · simp [hu, hs]
  · simp only [hu, hs, ne_eq, not_true_eq_false, not_false_eq_true, if_true, if_false,
      List.append_nil]
    rw [stringsJoin_append_singleton _ _ _ hT, List.append_assoc]
  · simp only [hu, hs, ne_eq, not_true_eq_false, not_false_eq_true, if_true, if_false,
      List.append_nil]
    rw [stringsJoin_append_singleton _ _ _ hT, List.append_assoc]
  · simp only [hu, hs, ne_eq, not_true_eq_false, not_false_eq_true, if_true, if_false]
    rw [stringsJoin_append_singleton _ _ _ (by simp),
      stringsJoin_append_singleton _ _ _ hT]
    simp [List.append_assoc]

theorem signingInputs_success (opts : options) (keyBytes : Bytes) (exp : Int) :
    signingInputs (Outcome.success opts keyBytes exp) = [signingInput opts exp] := rfl

theorem emitted_eq (opts : options) (keyBytes : Bytes) (exp : Int) :
    stringsJoin opts.FieldDelim (emittedFields opts keyBytes exp)
      = stringsJoin opts.FieldDelim (tokenFields opts exp) ++ opts.FieldDelim
        ++ (str "hmac=" ++ computeHMAC opts.Algorithm keyBytes (signingInput opts exp)) := by
  unfold emittedFields
  rw [stringsJoin_append_singleton _ _ _ (tokenFields_ne_nil opts exp)]

theorem valid_mode (env : Env) (opts : options) (keyBytes : Bytes) (exp : Int)
    (h : Valid env opts keyBytes exp) :
    (opts.ACL ≠ [] ∧ opts.URL = []) ∨ (opts.ACL = [] ∧ opts.URL ≠ []) := by
  have hm := h.1
  by_cases ha : opts.ACL = [] <;> by_cases hu : opts.URL = [] <;> simp_all

theorem valid_of_mode (env : Env) (opts : options) (keyBytes : Bytes) (exp : Int)
    (hmode : (opts.ACL ≠ [] ∧ opts.URL = []) ∨ (opts.ACL = [] ∧ opts.URL ≠ []))
    (hkey : hexDecodeString opts.Key = .ok keyBytes) (hlen : 1 ≤ keyBytes.length)
    (hexp : resolveExp env opts = .ok exp) (hpos : 0 < exp)
    (hst : 0 < opts.StartTime → opts.StartTime < exp) : Valid env opts keyBytes exp := by
  refine ⟨?_, hkey, ?_, hexp, hpos, hst⟩
  · rcases hmode with ⟨h1, h2⟩ | ⟨h1, h2⟩
    · simp [h1, h2]
    · simp [h1, h2]
  · intro h; rw [h] at hlen; simp at hlen

theorem resolveExp_explicit (env : Env) (opts : options) (h : 0 < opts.ExpireTime) :
    resolveExp env opts = .ok opts.ExpireTime := by
  simp [resolveExp, h]

theorem run_after_key (env : Env) (opts : options) (keyBytes : Bytes)
    (hmode : (opts.ACL ≠ [] ∧ opts.URL = []) ∨ (opts.ACL = [] ∧ opts.URL ≠ []))
    (hkey : hexDecodeString opts.Key = .ok keyBytes) (hlen : 1 ≤ keyBytes.length) :
    run env opts =
      match resolveExp env opts with
      | .error e => Outcome.fail e
      | .ok exp =>
        if exp ≤ 0 then Outcome.fail .nonPositiveExpiry
        else if (startPtr opts).any (fun st => exp ≤ st) then Outcome.fail .alreadyExpired
        else Outcome.success opts keyBytes exp := by
  have hmode' : ¬ ((opts.ACL = [] ∧ opts.URL = []) ∨ (opts.ACL ≠ [] ∧ opts.URL ≠ [])) := by
    rcases hmode with ⟨h1, h2⟩ | ⟨h1, h2⟩
    · simp [h1, h2]
    · simp [h1, h2]
  have hlen' : ¬ keyBytes.length = 0 := by omega
  unfold run
  rw [if_neg hmode']
  simp only [hkey]
  rw [if_neg hlen']
  rfl

theorem run_after_key_err (env : Env) (opts : options) (keyBytes : Bytes)
    (hmode : (opts.ACL ≠ [] ∧ opts.URL = []) ∨ (opts.ACL = [] ∧ opts.URL ≠ []))
    (hkey : hexDecodeString opts.Key = .ok keyBytes) (hlen : 1 ≤ keyBytes.length) :
    (run env opts).err ≠ some .invalidKey := by
  rw [run_after_key env opts keyBytes hmode hkey hlen]
  cases hexp : resolveExp env opts with
  | error e =>
    rcases resolveExp_error env opts e hexp with h3 | ⟨d, h3⟩
    · subst h3; simp [Outcome.fail]
    · subst h3; simp [Outcome.fail]
  | ok exp =>
    simp only
    split
    · simp [Outcome.fail]
    · split
      · simp [Outcome.fail]
      · simp [Outcome.success]

theorem run_key_error (env : Env) (opts : options) (e : HexError)
    (hmode : (opts.ACL ≠ [] ∧ opts.URL = []) ∨ (opts.ACL = [] ∧ opts.URL ≠ []))
    (hkey : hexDecodeString opts.Key = .error e) :
    run env opts = Outcome.fail .invalidKey := by
  have hmode' : ¬ ((opts.ACL = [] ∧ opts.URL = []) ∨ (opts.ACL ≠ [] ∧ opts.URL ≠ [])) := by
    rcases hmode with ⟨h1, h2⟩ | ⟨h1, h2⟩
    · simp [h1, h2]
    · simp [h1, h2]
  unfold run
  rw [if_neg hmode']
  simp only [hkey]

theorem run_key_empty (env : Env) (opts : options)
    (hmode : (opts.ACL ≠ [] ∧ opts.URL = []) ∨ (opts.ACL = [] ∧ opts.URL ≠ []))
    (hkey : hexDecodeString opts.Key = .ok []) :
    run env opts = Outcome.fail .invalidKey := by
  have hmode' : ¬ ((opts.ACL = [] ∧ opts.URL = []) ∨ (opts.ACL ≠ [] ∧ opts.URL ≠ [])) := by
    rcases hmode with ⟨h1, h2⟩ | ⟨h1, h2⟩
    · simp [h1, h2]
    · simp [h1, h2]
  unfold run
  rw [if_neg hmode']
  simp only [hkey]
  rfl

theorem fromHexChar_eq_none_iff (c : Nat) : fromHexChar c = none ↔ ¬ IsHexDigit c := by
  unfold fromHexChar IsHexDigit
  split
  · simp_all
  · split
    · simp_all
    · split
      · simp_all
      · simp_all

theorem hexDecodeString_ok_iff (k : Bytes) :
    (∃ bs, hexDecodeString k = .ok bs) ↔ (k.length % 2 = 0 ∧ ∀ c ∈ k, IsHexDigit c) := by
  induction k using hexDecodeString.induct with
  | case1 => simp [hexDecodeString]
  | case2 p hp =>
    simp [hexDecodeString, hp]
  | case3 p v hp =>
    simp [hexDecodeString, hp]
  | case4 p q rest hp =>
    have := (fromHexChar_eq_none_iff p).mp hp
    simp [hexDecodeString, hp]
    intro _ h
    exact absurd h this
  | case5 p q rest a hp hq =>
    have := (fromHexChar_eq_none_iff q).mp hq
    simp [hexDecodeString, hp, hq]
    intro _ _ h
    exact absurd h this
  | case6 p q rest a hp b hq e he ih =>
    simp only [hexDecodeString, hp, hq, he]
    have h1 : ¬ ∃ bs, hexDecodeString rest = Except.ok bs := by
      rintro ⟨bs, hbs⟩
      rw [he] at hbs
      cases hbs
    have h2 := mt ih.mpr h1
    constructor
    · rintro ⟨bs, hbs⟩
      cases hbs
    · rintro ⟨hl, hall⟩
      exfalso
      apply h2
      constructor
      · simp only [List.length_cons] at hl
        omega
      · intro c hc
        exact hall c (by simp [hc])
  | case7 p q rest a hp b hq bs hbs ih =>
    simp only [hexDecodeString, hp, hq, hbs]
    have hv := ih.mp ⟨bs, hbs⟩
    have hpd : IsHexDigit p := by
      by_contra hn
      rw [(fromHexChar_eq_none_iff p).mpr hn] at hp
      cases hp
    have hqd : IsHexDigit q := by
      by_contra hn
      rw [(fromHexChar_eq_none_iff q).mpr hn] at hq
      cases hq
    constructor
    · intro _
      constructor
      · simp only [List.length_cons]
        omega
      · intro c hc
        simp only [List.mem_cons] at hc
        rcases hc with rfl | rfl | hc
        · exact hpd
        · exact hqd
        · exact hv.2 c hc
    · intro _
      exact ⟨_, rfl⟩

theorem hexDecodeString_length (k bs : Bytes) (h : hexDecodeString k = .ok bs) :
    2 * bs.length = k.length := by
  induction k using hexDecodeString.induct generalizing bs with
  | case1 => simp [hexDecodeString] at h; subst h; rfl
  | case2 p hp => simp [hexDecodeString, hp] at h
  | case3 p v hp => simp [hexDecodeString, hp] at h
  | case4 p q rest hp => simp [hexDecodeString, hp] at h
  | case5 p q rest a hp hq => simp [hexDecodeString, hp, hq] at h
  | case6 p q rest a hp b hq e he ih => simp [hexDecodeString, hp, hq, he] at h
  | case7 p q rest a hp b hq bs2 hbs ih =>
    simp only [hexDecodeString, hp, hq, hbs] at h
    cases h
    have := ih bs2 hbs
    simp only [List.length_cons]
    omega

theorem resolveExp_eq_ok_iff (env : Env) (opts : options) (exp : Int)
    (henv : ∀ d, env.parseDuration [] ≠ .ok d) :
    resolveExp env opts = .ok exp ↔ resolvedExpiration env opts = some exp := by
  unfold resolveExp resolvedExpiration
  by_cases he : 0 < opts.ExpireTime
  · simp only [he, if_true]
    constructor
    · intro h; cases h; rfl
    · intro h; cases h; rfl
  · simp only [he, if_false]
    by_cases hd : opts.Duration = []
    · rw [hd]
      simp only [ne_eq, not_true_eq_false, if_false]
      cases hp : env.parseDuration [] with
      | error e =>
        constructor
        · intro h; cases h
        · intro h; cases h
      | ok d => exact absurd hp (henv d)
    · simp only [ne_eq, hd, not_false_eq_true, if_true]
      cases hp : env.parseDuration opts.Duration with
      | error e =>
        constructor
        · intro h; cases h
        · intro h; cases h
      | ok d =>
        by_cases hpos : 0 < d
        · simp only [hpos, not_le.mpr hpos, if_true, if_false]
          by_cases hs : 0 < opts.StartTime
          · simp only [startPtr, hs, if_true]
            constructor
            · intro h; cases h; rfl
            · intro h; cases h; rfl
          · simp only [startPtr, hs, if_false]
            constructor
            · intro h; cases h; rfl
            · intro h; cases h; rfl
        · simp only [hpos, not_lt.mp hpos, if_true, if_false]
          constructor
          · intro h; cases h
          · intro h; cases h

theorem resolvedExpiration_source (env : Env) (opts : options) (exp : Int)
    (h : resolvedExpiration env opts = some exp) :
    0 < opts.ExpireTime ∨ ∃ d, env.parseDuration opts.Duration = .ok d ∧ 0 < d := by
  unfold resolvedExpiration at h
  by_cases he : 0 < opts.ExpireTime
  · exact Or.inl he
  · right
    simp only [he, if_false] at h
    cases hp : env.parseDuration opts.Duration with
    | error e => rw [hp] at h; cases h
    | ok d =>
      rw [hp] at h
      by_cases hpos : 0 < d
      · exact ⟨d, rfl, hpos⟩
      · simp only [hpos, if_false] at h
        cases h

theorem upperhex_ascii (k : Nat) : upperhex.getD k 0 < 128 := by
  by_cases hk : k < 16
  · interval_cases k <;> decide
  · have h16 : upperhex.length = 16 := rfl
    rw [List.getD_eq_default _ _ (by omega)]
    decide

/-- The result of `url.QueryEscape` is ASCII, which is what the model of
`strings.ToLower` relies on. -/
theorem queryEscape_ascii (s : Bytes) : ∀ c ∈ queryEscape s, c < 128 := by
  induction s with
  | nil => intro c hc; simp [queryEscape] at hc
  | cons b rest ih =>
    intro c hc
    unfold queryEscape at hc
    by_cases h1 : b = ' '.toNat
    · rw [if_pos h1] at hc
      simp only [List.mem_cons] at hc
      rcases hc with hc | hc
      · rw [hc]; decide
      · exact ih c hc
    · rw [if_neg h1] at hc
      cases h2 : shouldEscape b with
      | true =>
        simp only [h2, if_true, List.mem_cons] at hc
        rcases hc with hc | hc | hc | hc
        · rw [hc]; decide
        · rw [hc]; exact upperhex_ascii _
        · rw [hc]; exact upperhex_ascii _
        · exact ih c hc
      | false =>
        simp only [h2, Bool.false_eq_true, if_false, List.mem_cons] at hc
        rcases hc with hc | hc
        · rw [hc]
          unfold shouldEscape at h2
          simp only [Char.reduceToNat] at h2
          split at h2
          · omega
          · split at h2
            · omega
            · cases h2
        · exact ih c hc

/-! ## C1: the emitted token -/

/-- C1: for options that pass validation (exactly one of ACL/URL non-empty, the key
hex-decodes to at least one byte, the resolved expiration `exp` is positive and exceeds
a positive StartTime), `run` returns no error and prints exactly
`join(D, T ++ ["hmac=" ++ computeHMAC(Algorithm, keyBytes, join(D, T ++ U ++ S))])`, with
`T` the ip, st, exp, acl, id, data fields in that order, `U` the url field and `S` the
salt field. -/
theorem run_emits_signed_token (env : Env) (opts : options) (keyBytes : Bytes) (exp : Int)
    (hmode : (opts.ACL ≠ [] ∧ opts.URL = []) ∨ (opts.ACL = [] ∧ opts.URL ≠ []))
    (hkey : hexDecodeString opts.Key = .ok keyBytes) (hlen : 1 ≤ keyBytes.length)
    (hexp : resolveExp env opts = .ok exp) (hpos : 0 < exp)
    (hst : 0 < opts.StartTime → opts.StartTime < exp) :
    let D := opts.FieldDelim
    let T := (if opts.IP ≠ [] then [str "ip=" ++ maybeEscape opts.IP opts.EscapeEarly] else [])
      ++ (if 0 < opts.StartTime then [str "st=" ++ formatInt opts.StartTime] else [])
      ++ [str "exp=" ++ formatInt exp]
      ++ (if opts.URL = [] then [str "acl=" ++ opts.ACL] else [])
      ++ (if opts.SessionID ≠ [] then
            [str "id=" ++ maybeEscape opts.SessionID opts.EscapeEarly] else [])
      ++ (if opts.Payload ≠ [] then
            [str "data=" ++ maybeEscape opts.Payload opts.EscapeEarly] else [])
    let U := if opts.URL ≠ [] then [str "url=" ++ maybeEscape opts.URL opts.EscapeEarly] else []
    let S := if opts.Salt ≠ [] then [str "salt=" ++ opts.Salt] else []
    (run env opts).err = none
    ∧ (run env opts).printed
        = [stringsJoin D (T ++ [str "hmac="
            ++ computeHMAC opts.Algorithm keyBytes (stringsJoin D (T ++ U ++ S))])] := by
  intro D T U S
  have hv : Valid env opts keyBytes exp :=
    valid_of_mode env opts keyBytes exp hmode hkey hlen hexp hpos hst
  rw [run_of_valid env opts keyBytes exp hv]
  have hT : tokenFields opts exp = T := by
    by_cases hs : 0 < opts.StartTime
    · simp [tokenFields, T, startPtr, hs]
    · simp [tokenFields, T, startPtr, hs]
  refine ⟨rfl, ?_⟩
  simp only [Outcome.success, emittedFields, signingInput, hashFields, hT]

/-- C1 witness: key deadbeef, ACL `/*`, ExpireTime 100, sha256, delimiter `~`. -/
theorem run_emits_signed_token_witness :
    (run sampleEnv aclOpts).err = none
    ∧ (run sampleEnv aclOpts).printed
        = [str "exp=100~acl=/*~hmac="
            ++ computeHMAC (str "sha256") [0xde, 0xad, 0xbe, 0xef] (str "exp=100~acl=/*")]
    ∧ computeHMAC (str "sha256") [0xde, 0xad, 0xbe, 0xef] (str "exp=100~acl=/*")
        = str "b9a3aada5ce1251bddf0ad65fb92cf59dfd49cc346fa0a52a24dfa75a4f945e7" := by
  have h := run_emits_signed_token sampleEnv aclOpts [0xde, 0xad, 0xbe, 0xef] 100
    (by decide) rfl (by decide) rfl (by decide) (by decide)
  exact ⟨h.1, h.2.trans (by decide!), by decide!⟩

/-! ## C2: field order -/

theorem emittedFields_keys (opts : options) (keyBytes : Bytes) (exp : Int) :
    (emittedFields opts keyBytes exp).map fieldKey
      = (if opts.IP ≠ [] then [str "ip"] else [])
        ++ (if 0 < opts.StartTime then [str "st"] else [])
        ++ [str "exp"]
        ++ (if opts.URL = [] then [str "acl"] else [])
        ++ (if opts.SessionID ≠ [] then [str "id"] else [])
        ++ (if opts.Payload ≠ [] then [str "data"] else [])
        ++ [str "hmac"] := by
  have k1 : ∀ x : Bytes, fieldKey (str "ip=" ++ x) = str "ip" := fun _ => rfl
  have k2 : ∀ x : Bytes, fieldKey (str "st=" ++ x) = str "st" := fun _ => rfl
  have k3 : ∀ x : Bytes, fieldKey (str "exp=" ++ x) = str "exp" := fun _ => rfl
  have k4 : ∀ x : Bytes, fieldKey (str "acl=" ++ x) = str "acl" := fun _ => rfl
  have k5 : ∀ x : Bytes, fieldKey (str "id=" ++ x) = str "id" := fun _ => rfl
  have k6 : ∀ x : Bytes, fieldKey (str "data=" ++ x) = str "data" := fun _ => rfl
  have k7 : ∀ x : Bytes, fieldKey (str "hmac=" ++ x) = str "hmac" := fun _ => rfl
  by_cases h1 : opts.IP = [] <;> by_cases h2 : 0 < opts.StartTime
    <;> by_cases h3 : opts.URL = [] <;> by_cases h4 : opts.SessionID = []
    <;> by_cases h5 : opts.Payload = []
    <;> simp [emittedFields, tokenFields, startPtr, h1, h2, h3, h4, h5, k1, k2, k3, k4, k5,
      k6, k7]

theorem emittedFields_keys_sublist (opts : options) (keyBytes : Bytes) (exp : Int) :
    List.Sublist ((emittedFields opts keyBytes exp).map fieldKey) keyOrder := by
  rw [emittedFields_keys]
  by_cases h1 : opts.IP = [] <;> by_cases h2 : 0 < opts.StartTime
    <;> by_cases h3 : opts.URL = [] <;> by_cases h4 : opts.SessionID = []
    <;> by_cases h5 : opts.Payload = []
    <;> simp only [h1, h2, h3, h4, h5, if_true, if_false, ne_eq, not_true_eq_false,
      not_false_eq_true]
    <;> decide

/-- C2: when `run` succeeds, it prints the join of a field list whose keys, in order,
form a subsequence of `[ip, st, exp, acl, id, data, hmac]` without a repeated key; the
`exp` field is present and the `hmac` field is present and last. -/
theorem run_field_order (env : Env) (opts : options) (h : (run env opts).err = none) :
    ∃ keyBytes exp, hexDecodeString opts.Key = .ok keyBytes ∧ resolveExp env opts = .ok exp
      ∧ (run env opts).printed
          = [stringsJoin opts.FieldDelim (emittedFields opts keyBytes exp)]
      ∧ List.Sublist ((emittedFields opts keyBytes exp).map fieldKey) keyOrder
      ∧ ((emittedFields opts keyBytes exp).map fieldKey).Nodup
      ∧ str "exp" ∈ (emittedFields opts keyBytes exp).map fieldKey
      ∧ ((emittedFields opts keyBytes exp).map fieldKey).getLast? = some (str "hmac") := by
  obtain ⟨keyBytes, exp, hv, hrun⟩ := run_success_inv env opts h
  refine ⟨keyBytes, exp, hv.2.1, hv.2.2.2.1, by rw [hrun]; rfl, ?_⟩
  rw [emittedFields_keys]
  by_cases h1 : opts.IP = [] <;> by_cases h2 : 0 < opts.StartTime
    <;> by_cases h3 : opts.URL = [] <;> by_cases h4 : opts.SessionID = []
    <;> by_cases h5 : opts.Payload = []
    <;> simp only [h1, h2, h3, h4, h5, if_true, if_false, ne_eq, not_true_eq_false,
      not_false_eq_true]
    <;> decide

/-- C2 witness: the options `--key=deadbeef --acl=/* --exp=100`. -/
theorem run_field_order_witness :
    ∃ keyBytes exp, hexDecodeString aclOpts.Key = .ok keyBytes
      ∧ resolveExp sampleEnv aclOpts = .ok exp
      ∧ (run sampleEnv aclOpts).printed
          = [stringsJoin aclOpts.FieldDelim (emittedFields aclOpts keyBytes exp)]
      ∧ List.Sublist ((emittedFields aclOpts keyBytes exp).map fieldKey) keyOrder
      ∧ ((emittedFields aclOpts keyBytes exp).map fieldKey).Nodup
      ∧ str "exp" ∈ (emittedFields aclOpts keyBytes exp).map fieldKey
      ∧ ((emittedFields aclOpts keyBytes exp).map fieldKey).getLast? = some (str "hmac") :=
  run_field_order sampleEnv aclOpts (by decide!)

/-! ## C3: the mode conflict -/

/-- C3: `run` fails with the mode-conflict error ("specify either --acl or --url
exclusively") if and only if ACL and URL are both empty or both non-empty, whatever the
other options are; when it does, nothing is printed and `computeHMAC` is not called. -/
theorem run_mode_conflict_iff (env : Env) (opts : options) :
    ((run env opts).err = some .modeConflict
      ↔ (opts.ACL = [] ∧ opts.URL = []) ∨ (opts.ACL ≠ [] ∧ opts.URL ≠ []))
    ∧ ((run env opts).err = some .modeConflict
      → (run env opts).hmacCalls = [] ∧ (run env opts).printed = [])
    ∧ RunError.modeConflict.message = "specify either --acl or --url exclusively" := by
  refine ⟨⟨?_, ?_⟩, ?_, rfl⟩
  · intro h
    rcases run_cases env opts with ⟨keyBytes, exp, _, hrun⟩ | ⟨e, he⟩
    · rw [hrun] at h; cases h
    · by_contra hmode
      cases hkey : hexDecodeString opts.Key with
      | error e2 =>
        have : run env opts = Outcome.fail .invalidKey := by
          unfold run; rw [if_neg hmode]; simp only [hkey]
        rw [this] at h; cases h
      | ok keyBytes =>
        by_cases hlen : keyBytes.length = 0
        · have : run env opts = Outcome.fail .invalidKey := by
            unfold run; rw [if_neg hmode]; simp only [hkey]; rw [if_pos hlen]
          rw [this] at h; cases h
        · cases hexp : resolveExp env opts with
          | error e3 =>
            have : run env opts = Outcome.fail e3 := by
              unfold run; rw [if_neg hmode]; simp only [hkey, hexp]; rw [if_neg hlen]
            rw [this] at h
            rcases resolveExp_error env opts e3 hexp with h3 | ⟨d, h3⟩
            · subst h3; cases h
            · subst h3; cases h
          | ok exp =>
            have : (run env opts).err ≠ some .modeConflict := by
              unfold run; rw [if_neg hmode]; simp only [hkey, hexp]; rw [if_neg hlen]
              split
              · simp [Outcome.fail]
              · split
                · simp [Outcome.fail]
                · simp
            exact this h
  · intro hmode
    unfold run; rw [if_pos hmode]; rfl
  · intro h
    rcases run_cases env opts with ⟨keyBytes, exp, _, hrun⟩ | ⟨e, he⟩
    · rw [hrun] at h; cases h
    · rw [he]; exact ⟨rfl, rfl⟩

/-! ## C4: the expiry guard -/

/-- C4, as stated, fails: StartTime 50 and ExpireTime -1 satisfy `s > 0` and `e <= s`
with a valid mode and key, yet `run` returns the missing-expiry error (an ExpireTime
that is not positive counts as absent), not the already-expired one. -/
theorem run_already_expired_counterexample :
    0 < negativeExpOpts.StartTime
    ∧ negativeExpOpts.ExpireTime ≤ negativeExpOpts.StartTime
    ∧ negativeExpOpts.ACL ≠ [] ∧ negativeExpOpts.URL = []
    ∧ hexDecodeString negativeExpOpts.Key = .ok [0xde, 0xad, 0xbe, 0xef]
    ∧ (run sampleEnv negativeExpOpts).err = some .missingExpiry
    ∧ (run sampleEnv negativeExpOpts).err ≠ some .alreadyExpired := by
  refine ⟨by decide, by decide, by decide, by decide, rfl, ?_, ?_⟩ <;> decide!

/-- C4, amended: for every StartTime `s` and ExpireTime `e` with `0 < e <= s` (so the
start time is set), a valid mode and a key that hex-decodes to at least one byte, `run`
fails with the already-expired error ("token already expired: exp <= st") and prints
nothing. -/
theorem run_already_expired (env : Env) (opts : options) (keyBytes : Bytes)
    (hmode : (opts.ACL ≠ [] ∧ opts.URL = []) ∨ (opts.ACL = [] ∧ opts.URL ≠ []))
    (hkey : hexDecodeString opts.Key = .ok keyBytes) (hlen : 1 ≤ keyBytes.length)
    (he : 0 < opts.ExpireTime) (hle : opts.ExpireTime ≤ opts.StartTime) :
    (run env opts).err = some .alreadyExpired
    ∧ (run env opts).printed = []
    ∧ (run env opts).hmacCalls = []
    ∧ RunError.alreadyExpired.message = "token already expired: exp <= st" := by
  have hmode' : ¬ ((opts.ACL = [] ∧ opts.URL = []) ∨ (opts.ACL ≠ [] ∧ opts.URL ≠ [])) := by
    rcases hmode with ⟨h1, h2⟩ | ⟨h1, h2⟩
    · simp [h1, h2]
    · simp [h1, h2]
  have hlen' : ¬ keyBytes.length = 0 := by omega
  have hany : (startPtr opts).any (fun st => decide (opts.ExpireTime ≤ st)) = true :=
    (startPtr_any opts opts.ExpireTime).mpr ⟨by omega, hle⟩
  have hrun : run env opts = Outcome.fail .alreadyExpired := by
    unfold run
    rw [if_neg hmode']
    simp only [hkey, resolveExp_explicit env opts he]
    rw [if_neg hlen', if_neg (not_le.mpr he), if_pos hany]
  rw [hrun]
  exact ⟨rfl, rfl, rfl, rfl⟩

/-- C4 witness: StartTime 50, ExpireTime 50. -/
theorem run_already_expired_witness :
    (run sampleEnv expiredOpts).err = some .alreadyExpired
    ∧ (run sampleEnv expiredOpts).printed = []
    ∧ (run sampleEnv expiredOpts).hmacCalls = []
    ∧ RunError.alreadyExpired.message = "token already expired: exp <= st" :=
  run_already_expired sampleEnv expiredOpts [0xde, 0xad, 0xbe, 0xef]
    (by decide) rfl (by decide) (by decide) (by decide)

/-! ## C5: what the digest covers -/

/-- C5, as stated, fails for EscapeEarly true: the URLs `/A` and `/a` differ, `run`
succeeds on both, and the two signing inputs are the same string
`exp=100~url=%2fa~salt=xyz`. -/
theorem signing_input_differs_counterexample :
    upperUrlOpts.URL ≠ lowerUrlOpts.URL
    ∧ lowerUrlOpts = { upperUrlOpts with URL := str "/a" }
    ∧ upperUrlOpts.ACL = [] ∧ upperUrlOpts.EscapeEarly = true
    ∧ (run sampleEnv upperUrlOpts).err = none
    ∧ (run sampleEnv lowerUrlOpts).err = none
    ∧ signingInputs (run sampleEnv upperUrlOpts) = [str "exp=100~url=%2fa~salt=xyz"]
    ∧ signingInputs (run sampleEnv lowerUrlOpts) = [str "exp=100~url=%2fa~salt=xyz"] := by
  refine ⟨by decide, rfl, rfl, rfl, ?_, ?_, ?_, ?_⟩ <;> decide!

theorem saltPart_injective (opts : options) (salt2 : Bytes)
    (h : saltPart opts = saltPart { opts with Salt := salt2 }) : opts.Salt = salt2 := by
  unfold saltPart at h
  by_cases h1 : opts.Salt = [] <;> by_cases h2 : salt2 = []
  · rw [h1, h2]
  · simp only [h1, h2, ne_eq, not_true_eq_false, not_false_eq_true, if_true, if_false] at h
    have := congrArg List.length h
    simp [str] at this
    omega
  · simp only [h1, h2, ne_eq, not_true_eq_false, not_false_eq_true, if_true, if_false] at h
    have := congrArg List.length h
    simp [str] at this
  · simp only [h1, h2, ne_eq, not_true_eq_false, not_false_eq_true, if_true, if_false] at h
    exact List.append_cancel_left (List.append_cancel_left h)

/-- C5, amended: two successful runs on options that differ only in Salt have different
signing inputs, for both values of EscapeEarly; two successful SingleURL-mode runs on
options that differ only in URL have different signing inputs exactly when
`maybeEscape` maps the two URLs to different strings, which is always so when
EscapeEarly is false. -/
theorem signing_input_differs (env : Env) (opts : options) :
    (∀ salt2, salt2 ≠ opts.Salt → (run env opts).err = none
        → (run env { opts with Salt := salt2 }).err = none
        → signingInputs (run env opts) ≠ signingInputs (run env { opts with Salt := salt2 }))
    ∧ (∀ url2, opts.URL ≠ [] → url2 ≠ opts.URL → (run env opts).err = none
        → (run env { opts with URL := url2 }).err = none
        → (signingInputs (run env opts) ≠ signingInputs (run env { opts with URL := url2 })
            ↔ maybeEscape opts.URL opts.EscapeEarly ≠ maybeEscape url2 opts.EscapeEarly)
          ∧ (opts.EscapeEarly = false
            → signingInputs (run env opts)
                ≠ signingInputs (run env { opts with URL := url2 }))) := by
  constructor
  · intro salt2 hne h1 h2
    obtain ⟨kb1, exp1, hv1, hr1⟩ := run_success_inv env opts h1
    obtain ⟨kb2, exp2, hv2, hr2⟩ := run_success_inv env _ h2
    have hexp : exp1 = exp2 := by
      have e1 := hv1.2.2.2.1
      have e2 : resolveExp env opts = .ok exp2 := hv2.2.2.2.1
      rw [e1] at e2
      cases e2; rfl
    subst hexp
    rw [hr1, hr2, signingInputs_success, signingInputs_success, signingInput_eq,
      signingInput_eq]
    intro heq
    have heq' := List.cons_eq_cons.mp heq
    have h3 : stringsJoin opts.FieldDelim (tokenFields opts exp1) ++ urlPart opts
          ++ saltPart opts
        = stringsJoin opts.FieldDelim (tokenFields opts exp1) ++ urlPart opts
          ++ saltPart { opts with Salt := salt2 } := heq'.1
    exact hne (saltPart_injective opts salt2 (List.append_cancel_left h3)).symm
  · intro url2 hu hne h1 h2
    obtain ⟨kb1, exp1, hv1, hr1⟩ := run_success_inv env opts h1
    obtain ⟨kb2, exp2, hv2, hr2⟩ := run_success_inv env _ h2
    have hexp : exp1 = exp2 := by
      have e1 := hv1.2.2.2.1
      have e2 : resolveExp env opts = .ok exp2 := hv2.2.2.2.1
      rw [e1] at e2
      cases e2; rfl
    subst hexp
    have hacl : opts.ACL = [] := by
      rcases valid_mode env opts kb1 exp1 hv1 with ⟨_, h⟩ | ⟨h, _⟩
      · exact absurd h hu
      · exact h
    have hu2 : url2 ≠ [] := by
      rcases valid_mode env _ kb2 exp1 hv2 with ⟨h, _⟩ | ⟨_, h⟩
      · exact absurd hacl h
      · exact h
    have hT : tokenFields { opts with URL := url2 } exp1 = tokenFields opts exp1 := by
      simp [tokenFields, startPtr, hu, hu2]
    have hS : saltPart { opts with URL := url2 } = saltPart opts := rfl
    have key : signingInputs (run env opts) = signingInputs (run env { opts with URL := url2 })
        ↔ maybeEscape opts.URL opts.EscapeEarly = maybeEscape url2 opts.EscapeEarly := by
      rw [hr1, hr2, signingInputs_success, signingInputs_success, signingInput_eq,
        signingInput_eq, hT, hS]
      have hU1 : urlPart opts
          = opts.FieldDelim ++ (str "url=" ++ maybeEscape opts.URL opts.EscapeEarly) := by
        simp [urlPart, hu]
      have hU2 : urlPart { opts with URL := url2 }
          = opts.FieldDelim ++ (str "url=" ++ maybeEscape url2 opts.EscapeEarly) := by
        simp [urlPart, hu2]
      rw [hU1, hU2]
      constructor
      · intro heq
        have h3 := (List.cons_eq_cons.mp heq).1
        exact List.append_cancel_left (List.append_cancel_left
          (List.append_cancel_left (List.append_cancel_right h3)))
      · intro heq
        rw [heq]
    refine ⟨not_congr key, ?_⟩
    intro hesc heq
    have h3 := key.mp heq
    rw [hesc] at h3
    exact hne (by simpa [maybeEscape] using h3.symm)

/-- C5 witness: the options `--url=/path/file --salt=xyz`, with the salt changed to
`abc` and the URL changed to `/other`. -/
theorem signing_input_differs_witness :
    signingInputs (run sampleEnv urlOpts)
      ≠ signingInputs (run sampleEnv { urlOpts with Salt := str "abc" })
    ∧ signingInputs (run sampleEnv urlOpts)
      ≠ signingInputs (run sampleEnv { urlOpts with URL := str "/other" }) :=
  ⟨(signing_input_differs sampleEnv urlOpts).1 (str "abc") (by decide) (by decide!)
      (by decide!),
   ((signing_input_differs sampleEnv urlOpts).2 (str "/other") (by decide) (by decide)
      (by decide!) (by decide!)).2 rfl⟩

/-! ## C6: the token text and the signing input -/

theorem fieldKey_of_url (f : Bytes) (h : str "url=" <+: f) : fieldKey f = str "url" := by
  obtain ⟨t, rfl⟩ := h
  rfl

theorem fieldKey_of_salt (f : Bytes) (h : str "salt=" <+: f) : fieldKey f = str "salt" := by
  obtain ⟨t, rfl⟩ := h
  rfl

/-- C6: when `run` succeeds, no emitted field is a `url=` or `salt=` entry; the printed
text is `base`, the delimiter and the `hmac` field, and the signing input is `base`
followed by `FieldDelim ++ "url=" ++ maybeEscape(URL)` when URL is non-empty and then by
`FieldDelim ++ "salt=" ++ Salt` (Salt as given) when Salt is non-empty. -/
theorem signing_input_extends_token (env : Env) (opts : options)
    (h : (run env opts).err = none) :
    ∃ keyBytes exp base si,
      hexDecodeString opts.Key = .ok keyBytes ∧ resolveExp env opts = .ok exp
      ∧ (run env opts).printed
          = [stringsJoin opts.FieldDelim (emittedFields opts keyBytes exp)]
      ∧ (∀ f ∈ emittedFields opts keyBytes exp, ¬ (str "url=" <+: f) ∧ ¬ (str "salt=" <+: f))
      ∧ (emittedFields opts keyBytes exp).getLast?
          = some (str "hmac=" ++ computeHMAC opts.Algorithm keyBytes si)
      ∧ (run env opts).printed
          = [base ++ opts.FieldDelim ++ (str "hmac=" ++ computeHMAC opts.Algorithm keyBytes si)]
      ∧ (run env opts).hmacCalls = [(opts.Algorithm, keyBytes, si)]
      ∧ si = base
          ++ (if opts.URL ≠ [] then
                opts.FieldDelim ++ (str "url=" ++ maybeEscape opts.URL opts.EscapeEarly)
              else [])
          ++ (if opts.Salt ≠ [] then opts.FieldDelim ++ (str "salt=" ++ opts.Salt) else []) := by
  obtain ⟨keyBytes, exp, hv, hrun⟩ := run_success_inv env opts h
  refine ⟨keyBytes, exp, stringsJoin opts.FieldDelim (tokenFields opts exp),
    signingInput opts exp, hv.2.1, hv.2.2.2.1, by rw [hrun]; rfl, ?_, ?_, ?_, by rw [hrun]; rfl,
    signingInput_eq opts exp⟩
  · intro f hf
    have hk : fieldKey f ∈ keyOrder :=
      (emittedFields_keys_sublist opts keyBytes exp).subset (List.mem_map_of_mem fieldKey hf)
    constructor
    · intro hp
      rw [fieldKey_of_url f hp] at hk
      revert hk
      decide
    · intro hp
      rw [fieldKey_of_salt f hp] at hk
      revert hk
      decide
  · simp [emittedFields]
  · rw [hrun]
    show [stringsJoin opts.FieldDelim (emittedFields opts keyBytes exp)] = _
    rw [emitted_eq]

/-- C6 witness: key deadbeef, URL `/path/file`, ExpireTime 100, Salt `xyz` prints
`exp=100~hmac=<digest>` and signs `exp=100~url=/path/file~salt=xyz`. -/
theorem signing_input_extends_token_witness :
    (∃ keyBytes exp base si,
      hexDecodeString urlOpts.Key = .ok keyBytes ∧ resolveExp sampleEnv urlOpts = .ok exp
      ∧ (run sampleEnv urlOpts).printed
          = [stringsJoin urlOpts.FieldDelim (emittedFields urlOpts keyBytes exp)]
      ∧ (∀ f ∈ emittedFields urlOpts keyBytes exp,
          ¬ (str "url=" <+: f) ∧ ¬ (str "salt=" <+: f))
      ∧ (emittedFields urlOpts keyBytes exp).getLast?
          = some (str "hmac=" ++ computeHMAC urlOpts.Algorithm keyBytes si)
      ∧ (run sampleEnv urlOpts).printed
          = [base ++ urlOpts.FieldDelim
              ++ (str "hmac=" ++ computeHMAC urlOpts.Algorithm keyBytes si)]
      ∧ (run sampleEnv urlOpts).hmacCalls = [(urlOpts.Algorithm, keyBytes, si)]
      ∧ si = base
          ++ (if urlOpts.URL ≠ [] then
                urlOpts.FieldDelim
                  ++ (str "url=" ++ maybeEscape urlOpts.URL urlOpts.EscapeEarly)
              else [])
          ++ (if urlOpts.Salt ≠ [] then urlOpts.FieldDelim ++ (str "salt=" ++ urlOpts.Salt)
              else []))
    ∧ (run sampleEnv urlOpts).printed
        = [str "exp=100~hmac=6d76c8aac4d060a7270ebdb10920bb8146f4884e719b4ea67bcc30cc6c38ab81"]
    ∧ signingInputs (run sampleEnv urlOpts) = [str "exp=100~url=/path/file~salt=xyz"] :=
  ⟨signing_input_extends_token sampleEnv urlOpts (by decide!), by decide!, by decide!⟩

/-! ## C7: the escaped form -/

theorem isEscapedByte_not_upper (c : Nat) (h : IsEscapedByte c) : ¬ IsUpper c := by
  unfold IsEscapedByte at h
  unfold IsUpper
  simp only [Char.reduceToNat] at h ⊢
  omega

theorem upperhex_lower (k : Nat) (hk : k < 16) :
    IsEscapedByte (toLowerByte (upperhex.getD k 0)) := by
  unfold IsEscapedByte
  interval_cases k <;> decide

theorem toLowerByte_unescaped (c : Nat) (h : shouldEscape c = false) :
    IsEscapedByte (toLowerByte c) := by
  unfold shouldEscape at h
  unfold IsEscapedByte toLowerByte
  simp only [Char.reduceToNat] at h ⊢
  split at h
  · split <;> omega
  · split at h
    · split <;> omega
    · cases h

theorem toLower_queryEscape_bytes (s : Bytes) (hs : IsBytes s) :
    ∀ c ∈ toLower (queryEscape s), IsEscapedByte c := by
  induction s with
  | nil => intro c hc; simp [queryEscape, toLower] at hc
  | cons b rest ih =>
    have hb : b < 256 := hs b (by simp)
    have hrest : IsBytes rest := fun x hx => hs x (by simp [hx])
    have ih' := ih hrest
    intro c hc
    unfold queryEscape at hc
    by_cases h1 : b = ' '.toNat
    · rw [if_pos h1] at hc
      simp only [toLower, List.map_cons, List.mem_cons] at hc
      rcases hc with rfl | hc
      · unfold IsEscapedByte; decide
      · exact ih' c hc
    · rw [if_neg h1] at hc
      cases h2 : shouldEscape b with
      | true =>
        simp only [h2, if_true, toLower, List.map_cons, List.mem_cons] at hc
        rcases hc with hc | hc | hc | hc
        · rw [hc]; unfold IsEscapedByte; decide
        · rw [hc]; exact upperhex_lower _ (by omega)
        · rw [hc]; exact upperhex_lower _ (by omega)
        · exact ih' c hc
      | false =>
        simp only [h2, Bool.false_eq_true, if_false, toLower, List.map_cons,
          List.mem_cons] at hc
        rcases hc with hc | hc
        · rw [hc]; exact toLowerByte_unescaped b h2
        · exact ih' c hc

/-- C7: for every byte string `s`, `maybeEscape s true` is the query-component
percent-encoding of `s` converted to lower case; it contains no upper-case letter, and
each of its bytes is a lower-case letter, a digit or one of `- _ . ~ % +`. -/
theorem maybeEscape_lowercase (s : Bytes) (hs : IsBytes s) :
    maybeEscape s true = toLower (queryEscape s)
    ∧ (∀ c ∈ maybeEscape s true, ¬ IsUpper c)
    ∧ (∀ c ∈ maybeEscape s true, IsEscapedByte c) := by
  have h0 : maybeEscape s true = toLower (queryEscape s) := rfl
  refine ⟨h0, ?_, ?_⟩
  · intro c hc
    rw [h0] at hc
    exact isEscapedByte_not_upper c (toLower_queryEscape_bytes s hs c hc)
  · intro c hc
    rw [h0] at hc
    exact toLower_queryEscape_bytes s hs c hc

/-- C7 witness: the string `a B/C~`, whose escaped form is `a+b%2fc~`. -/
theorem maybeEscape_lowercase_witness :
    maybeEscape (str "a B/C~") true = str "a+b%2fc~"
    ∧ (∀ c ∈ maybeEscape (str "a B/C~") true, ¬ IsUpper c)
    ∧ (∀ c ∈ maybeEscape (str "a B/C~") true, IsEscapedByte c) :=
  have h := maybeEscape_lowercase (str "a B/C~") (by decide)
  ⟨h.1.trans (by decide), h.2⟩

/-! ## C8: the ACL is never escaped -/

/-- C8: in PathScope mode (ACL non-empty, URL empty), when `run` succeeds the emitted
field list has exactly one field with key `acl`, and it is `"acl=" ++ ACL` unchanged,
whatever EscapeEarly is; when IP, SessionID and Payload are empty, the outcome of `run`
is the same for EscapeEarly true and false. -/
theorem acl_verbatim (env : Env) (opts : options) (hacl : opts.ACL ≠ [])
    (hurl : opts.URL = []) (h : (run env opts).err = none) :
    ∃ keyBytes exp,
      hexDecodeString opts.Key = .ok keyBytes ∧ resolveExp env opts = .ok exp
      ∧ (run env opts).printed
          = [stringsJoin opts.FieldDelim (emittedFields opts keyBytes exp)]
      ∧ (emittedFields opts keyBytes exp).filter (fun f => fieldKey f = str "acl")
          = [str "acl=" ++ opts.ACL]
      ∧ (opts.IP = [] → opts.SessionID = [] → opts.Payload = []
          → run env { opts with EscapeEarly := true }
            = run env { opts with EscapeEarly := false }) := by
  obtain ⟨keyBytes, exp, hv, hrun⟩ := run_success_inv env opts h
  have _hmode : opts.ACL ≠ [] ∧ opts.URL = [] := ⟨hacl, hurl⟩
  refine ⟨keyBytes, exp, hv.2.1, hv.2.2.2.1, by rw [hrun]; rfl, ?_, ?_⟩
  · have k1 : ∀ x : Bytes, fieldKey (str "ip=" ++ x) = str "ip" := fun _ => rfl
    have k2 : ∀ x : Bytes, fieldKey (str "st=" ++ x) = str "st" := fun _ => rfl
    have k3 : ∀ x : Bytes, fieldKey (str "exp=" ++ x) = str "exp" := fun _ => rfl
    have k4 : ∀ x : Bytes, fieldKey (str "acl=" ++ x) = str "acl" := fun _ => rfl
    have k5 : ∀ x : Bytes, fieldKey (str "id=" ++ x) = str "id" := fun _ => rfl
    have k6 : ∀ x : Bytes, fieldKey (str "data=" ++ x) = str "data" := fun _ => rfl
    have k7 : ∀ x : Bytes, fieldKey (str "hmac=" ++ x) = str "hmac" := fun _ => rfl
    have n1 : str "ip" ≠ str "acl" := by decide
    have n2 : str "st" ≠ str "acl" := by decide
    have n3 : str "exp" ≠ str "acl" := by decide
    have n5 : str "id" ≠ str "acl" := by decide
    have n6 : str "data" ≠ str "acl" := by decide
    have n7 : str "hmac" ≠ str "acl" := by decide
    by_cases h1 : opts.IP = [] <;> by_cases h2 : 0 < opts.StartTime
      <;> by_cases h4 : opts.SessionID = [] <;> by_cases h5 : opts.Payload = []
      <;> simp [emittedFields, tokenFields, startPtr, List.filter, h1, h2, hurl, h4, h5, k1,
        k2, k3, k4, k5, k6, k7, n1, n2, n3, n5, n6, n7]
  · intro hip hid hdata
    have hvt : Valid env { opts with EscapeEarly := true } keyBytes exp := hv
    have hvf : Valid env { opts with EscapeEarly := false } keyBytes exp := hv
    rw [run_of_valid env _ keyBytes exp hvt, run_of_valid env _ keyBytes exp hvf]
    simp [Outcome.success, emittedFields, signingInput, hashFields, tokenFields, startPtr,
      hip, hid, hdata, hurl]

/-- C8 witness: the options `--key=deadbeef --acl=/* --exp=100`. -/
theorem acl_verbatim_witness :
    ∃ keyBytes exp,
      hexDecodeString aclOpts.Key = .ok keyBytes ∧ resolveExp sampleEnv aclOpts = .ok exp
      ∧ (run sampleEnv aclOpts).printed
          = [stringsJoin aclOpts.FieldDelim (emittedFields aclOpts keyBytes exp)]
      ∧ (emittedFields aclOpts keyBytes exp).filter (fun f => fieldKey f = str "acl")
          = [str "acl=" ++ aclOpts.ACL]
      ∧ (aclOpts.IP = [] → aclOpts.SessionID = [] → aclOpts.Payload = []
          → run sampleEnv { aclOpts with EscapeEarly := true }
            = run sampleEnv { aclOpts with EscapeEarly := false }) :=
  acl_verbatim sampleEnv aclOpts (by decide) rfl (by decide!)

/-! ## C9: the key -/

/-- C9: with exactly one of ACL/URL non-empty, `run` fails with the invalid-key error
("invalid --key: must be hex") if and only if Key has odd length, or contains a byte
that is not a hex digit, or decodes to zero bytes, which happens exactly for the empty
Key; in that case nothing is printed and `computeHMAC` is not called. -/
theorem run_invalid_key_iff (env : Env) (opts : options)
    (hmode : (opts.ACL ≠ [] ∧ opts.URL = []) ∨ (opts.ACL = [] ∧ opts.URL ≠ [])) :
    ((run env opts).err = some .invalidKey
      ↔ (opts.Key.length % 2 = 1 ∨ ∃ c ∈ opts.Key, ¬ IsHexDigit c)
        ∨ hexDecodeString opts.Key = .ok [])
    ∧ (hexDecodeString opts.Key = .ok [] ↔ opts.Key = [])
    ∧ ((run env opts).err = some .invalidKey
      → run env opts = Outcome.fail .invalidKey
        ∧ (run env opts).printed = [] ∧ (run env opts).hmacCalls = [])
    ∧ RunError.invalidKey.message = "invalid --key: must be hex" := by
  have hempty : hexDecodeString opts.Key = .ok [] ↔ opts.Key = [] := by
    constructor
    · intro h
      have := hexDecodeString_length _ _ h
      exact List.length_eq_zero.mp (by simpa using this.symm)
    · intro h; rw [h]; rfl
  have hiff : (run env opts).err = some .invalidKey
      ↔ (opts.Key.length % 2 = 1 ∨ ∃ c ∈ opts.Key, ¬ IsHexDigit c)
        ∨ hexDecodeString opts.Key = .ok [] := by
    constructor
    · intro h
      cases hkey : hexDecodeString opts.Key with
      | error e =>
        left
        have hn : ¬ (opts.Key.length % 2 = 0 ∧ ∀ c ∈ opts.Key, IsHexDigit c) := by
          intro hv
          obtain ⟨bs, hbs⟩ := (hexDecodeString_ok_iff opts.Key).mpr hv
          rw [hkey] at hbs
          cases hbs
        by_cases hl : opts.Key.length % 2 = 1
        · exact Or.inl hl
        · right
          by_contra hex
          apply hn
          refine ⟨by omega, ?_⟩
          intro c hc
          by_contra hcd
          exact hex ⟨c, hc, hcd⟩
      | ok keyBytes =>
        right
        cases keyBytes with
        | nil => rfl
        | cons b bs =>
          exact absurd h (run_after_key_err env opts (b :: bs) hmode hkey (by simp))
    · rintro (hbad | hzero)
      · cases hkey : hexDecodeString opts.Key with
        | error e => rw [run_key_error env opts e hmode hkey]; rfl
        | ok keyBytes =>
          exfalso
          have hv := (hexDecodeString_ok_iff opts.Key).mp ⟨keyBytes, hkey⟩
          rcases hbad with hl | ⟨c, hc, hcd⟩
          · omega
          · exact hcd (hv.2 c hc)
      · rw [run_key_empty env opts hmode hzero]; rfl
  refine ⟨hiff, hempty, ?_, rfl⟩
  intro h
  have hrun : run env opts = Outcome.fail .invalidKey := by
    rcases hiff.mp h with hbad | hzero
    · cases hkey : hexDecodeString opts.Key with
      | error e => exact run_key_error env opts e hmode hkey
      | ok keyBytes =>
        exfalso
        have hv := (hexDecodeString_ok_iff opts.Key).mp ⟨keyBytes, hkey⟩
        rcases hbad with hl | ⟨c, hc, hcd⟩
        · omega
        · exact hcd (hv.2 c hc)
    · exact run_key_empty env opts hmode hzero
  rw [hrun]
  exact ⟨rfl, rfl, rfl⟩

/-- C9 witness: the key `abc` has odd length, so `run` fails with the invalid-key
error. -/
theorem run_invalid_key_iff_witness :
    (run sampleEnv oddKeyOpts).err = some .invalidKey
    ∧ (run sampleEnv oddKeyOpts).printed = []
    ∧ (run sampleEnv oddKeyOpts).hmacCalls = [] :=
  have h := run_invalid_key_iff sampleEnv oddKeyOpts (by decide)
  have herr : (run sampleEnv oddKeyOpts).err = some .invalidKey :=
    h.1.mpr (Or.inl (Or.inl (by decide)))
  ⟨herr, (h.2.2.1 herr).2⟩

/-! ## C10: success and failure -/

/-- C10: for a duration parser that rejects the empty string (as `time.ParseDuration`
does), `run` returns no error and prints one token if and only if exactly one of ACL/URL
is non-empty, Key hex-decodes to at least one byte, ExpireTime is positive or Duration
parses to a positive duration, the resolved expiration is positive, and StartTime is not
positive or the resolved expiration exceeds it; in every other case `run` returns an
error, prints nothing and computes no digest. -/
theorem run_success_iff (env : Env) (opts : options)
    (henv : ∀ d, env.parseDuration [] ≠ .ok d) :
    (((run env opts).err = none ∧ ∃ token, (run env opts).printed = [token])
      ↔ ((opts.ACL ≠ [] ∧ opts.URL = []) ∨ (opts.ACL = [] ∧ opts.URL ≠ []))
        ∧ (∃ keyBytes, hexDecodeString opts.Key = .ok keyBytes ∧ 1 ≤ keyBytes.length)
        ∧ (0 < opts.ExpireTime ∨ ∃ d, env.parseDuration opts.Duration = .ok d ∧ 0 < d)
        ∧ (∃ exp, resolvedExpiration env opts = some exp ∧ 0 < exp
            ∧ (opts.StartTime ≤ 0 ∨ opts.StartTime < exp)))
    ∧ (¬ ((run env opts).err = none ∧ ∃ token, (run env opts).printed = [token])
      → ∃ e, (run env opts).err = some e ∧ (run env opts).printed = []
          ∧ (run env opts).hmacCalls = []) := by
  constructor
  · constructor
    · rintro ⟨h, _⟩
      obtain ⟨keyBytes, exp, hv, _⟩ := run_success_inv env opts h
      have hres := (resolveExp_eq_ok_iff env opts exp henv).mp hv.2.2.2.1
      refine ⟨valid_mode env opts keyBytes exp hv, ⟨keyBytes, hv.2.1, ?_⟩,
        resolvedExpiration_source env opts exp hres, exp, hres, hv.2.2.2.2.1, ?_⟩
      · cases keyBytes with
        | nil => exact absurd rfl hv.2.2.1
        | cons b bs => simp
      · by_cases hs : 0 < opts.StartTime
        · exact Or.inr (hv.2.2.2.2.2 hs)
        · exact Or.inl (not_lt.mp hs)
    · rintro ⟨hmode, ⟨keyBytes, hkey, hlen⟩, _, exp, hres, hpos, hst⟩
      have hv : Valid env opts keyBytes exp :=
        valid_of_mode env opts keyBytes exp hmode hkey hlen
          ((resolveExp_eq_ok_iff env opts exp henv).mpr hres) hpos
          (by
            intro hs
            rcases hst with h | h
            · omega
            · exact h)
      rw [run_of_valid env opts keyBytes exp hv]
      exact ⟨rfl, _, rfl⟩
  · intro hn
    rcases run_cases env opts with ⟨keyBytes, exp, _, hrun⟩ | ⟨e, he⟩
    · exfalso
      apply hn
      rw [hrun]
      exact ⟨rfl, _, rfl⟩
    · rw [he]
      exact ⟨e, rfl, rfl, rfl⟩

/-- C10 witness: both sample parsers reject the empty string; the options
`--key=deadbeef --acl=/* --exp=100` and `--key=deadbeef --acl=/* --duration=300s` (at
clock reading 1700000000) satisfy every condition and `run` prints a token, the second
one with `exp=1700000300`. -/
theorem run_success_iff_witness :
    (∀ d, sampleEnv.parseDuration [] ≠ .ok d)
    ∧ ((run sampleEnv aclOpts).err = none
      ∧ ∃ token, (run sampleEnv aclOpts).printed = [token])
    ∧ (∀ d, durationEnv.parseDuration [] ≠ .ok d)
    ∧ ((run durationEnv durationOpts).err = none
      ∧ ∃ token, (run durationEnv durationOpts).printed = [token])
    ∧ resolvedExpiration durationEnv durationOpts = some 1700000300 :=
  have henv : ∀ d, sampleEnv.parseDuration [] ≠ .ok d := fun d h => by cases h
  have henv2 : ∀ d, durationEnv.parseDuration [] ≠ .ok d := fun d h => by cases h
  have hres : resolvedExpiration durationEnv durationOpts = some 1700000300 := by decide!
  ⟨henv, (run_success_iff sampleEnv aclOpts henv).1.mpr
    ⟨Or.inl ⟨by decide, rfl⟩, ⟨[0xde, 0xad, 0xbe, 0xef], rfl, by decide⟩, Or.inl (by decide),
      100, rfl, by decide, Or.inl (by decide)⟩,
   henv2, (run_success_iff durationEnv durationOpts henv2).1.mpr
    ⟨Or.inl ⟨by decide, rfl⟩, ⟨[0xde, 0xad, 0xbe, 0xef], rfl, by decide⟩,
      Or.inr ⟨300000000000, rfl, by decide⟩,
      1700000300, hres, by decide, Or.inl (by decide)⟩,
   hres⟩

/-! ## Further facts about `run` -/

theorem run_congr_env (env1 env2 : Env) (opts : options)
    (h : resolveExp env1 opts = resolveExp env2 opts) : run env1 opts = run env2 opts := by
  unfold run
  rw [h]

/-- The error of `run`, by the check that produced it. -/
theorem run_err_cases (env : Env) (opts : options) :
    (run env opts).err = some .modeConflict
    ∨ (run env opts).err = some .invalidKey
    ∨ (∃ e, resolveExp env opts = .error e ∧ (run env opts).err = some e)
    ∨ (∃ exp, resolveExp env opts = .ok exp ∧ exp ≤ 0
        ∧ (run env opts).err = some .nonPositiveExpiry)
    ∨ (∃ exp, resolveExp env opts = .ok exp ∧ 0 < opts.StartTime ∧ exp ≤ opts.StartTime
        ∧ (run env opts).err = some .alreadyExpired)
    ∨ (run env opts).err = none := by
  by_cases hmode : (opts.ACL = [] ∧ opts.URL = []) ∨ (opts.ACL ≠ [] ∧ opts.URL ≠ [])
  · left; unfold run; rw [if_pos hmode]; rfl
  · cases hkey : hexDecodeString opts.Key with
    | error e =>
      right; left
      unfold run; rw [if_neg hmode]; simp only [hkey]; rfl
    | ok keyBytes =>
      by_cases hlen : keyBytes.length = 0
      · right; left
        unfold run; rw [if_neg hmode]; simp only [hkey]; rw [if_pos hlen]; rfl
      · cases hexp : resolveExp env opts with
        | error e =>
          right; right; left
          refine ⟨e, rfl, ?_⟩
          unfold run; rw [if_neg hmode]; simp only [hkey, hexp]; rw [if_neg hlen]; rfl
        | ok exp =>
          by_cases hpos : exp ≤ 0
          · right; right; right; left
            refine ⟨exp, rfl, hpos, ?_⟩
            unfold run; rw [if_neg hmode]; simp only [hkey, hexp]
            rw [if_neg hlen, if_pos hpos]; rfl
          · by_cases hany : (startPtr opts).any (fun st => decide (exp ≤ st)) = true
            · right; right; right; right; left
              have h2 := (startPtr_any opts exp).mp hany
              refine ⟨exp, rfl, h2.1, h2.2, ?_⟩
              unfold run; rw [if_neg hmode]; simp only [hkey, hexp]
              rw [if_neg hlen, if_neg hpos, if_pos hany]; rfl
            · right; right; right; right; right
              unfold run; rw [if_neg hmode]; simp only [hkey, hexp]
              rw [if_neg hlen, if_neg hpos, if_neg hany]

theorem emittedFields_filter_exp (opts : options) (keyBytes : Bytes) (exp : Int) :
    (emittedFields opts keyBytes exp).filter (fun f => fieldKey f = str "exp")
      = [str "exp=" ++ formatInt exp] := by
  have k1 : ∀ x : Bytes, fieldKey (str "ip=" ++ x) = str "ip" := fun _ => rfl
  have k2 : ∀ x : Bytes, fieldKey (str "st=" ++ x) = str "st" := fun _ => rfl
  have k3 : ∀ x : Bytes, fieldKey (str "exp=" ++ x) = str "exp" := fun _ => rfl
  have k4 : ∀ x : Bytes, fieldKey (str "acl=" ++ x) = str "acl" := fun _ => rfl
  have k5 : ∀ x : Bytes, fieldKey (str "id=" ++ x) = str "id" := fun _ => rfl
  have k6 : ∀ x : Bytes, fieldKey (str "data=" ++ x) = str "data" := fun _ => rfl
  have k7 : ∀ x : Bytes, fieldKey (str "hmac=" ++ x) = str "hmac" := fun _ => rfl
  have n1 : str "ip" ≠ str "exp" := by decide
  have n2 : str "st" ≠ str "exp" := by decide
  have n4 : str "acl" ≠ str "exp" := by decide
  have n5 : str "id" ≠ str "exp" := by decide
  have n6 : str "data" ≠ str "exp" := by decide
  have n7 : str "hmac" ≠ str "exp" := by decide
  by_cases h1 : opts.IP = [] <;> by_cases h2 : 0 < opts.StartTime
    <;> by_cases h3 : opts.URL = [] <;> by_cases h4 : opts.SessionID = []
    <;> by_cases h5 : opts.Payload = []
    <;> simp [emittedFields, tokenFields, startPtr, List.filter, h1, h2, h3, h4, h5, k1,
      k2, k3, k4, k5, k6, k7, n1, n2, n4, n5, n6, n7]

/-! ## C11: an explicit expiration overrides the duration -/

/-- C11: with ExpireTime positive, the outcome of `run` (its error, or the printed
token) is the same for every value of Duration, and on success the one emitted field
with key `exp` is `"exp="` followed by the decimal of ExpireTime. -/
theorem explicit_expiration_overrides_duration (env : Env) (opts : options)
    (h : 0 < opts.ExpireTime) :
    (∀ d, run env { opts with Duration := d } = run env opts)
    ∧ ((run env opts).err = none
      → ∃ keyBytes, hexDecodeString opts.Key = .ok keyBytes
          ∧ (run env opts).printed
              = [stringsJoin opts.FieldDelim (emittedFields opts keyBytes opts.ExpireTime)]
          ∧ (emittedFields opts keyBytes opts.ExpireTime).filter
                (fun f => fieldKey f = str "exp")
              = [str "exp=" ++ formatInt opts.ExpireTime]) := by
  constructor
  · intro d
    have h1 : resolveExp env { opts with Duration := d } = .ok opts.ExpireTime :=
      resolveExp_explicit env _ h
    have h2 := resolveExp_explicit env opts h
    unfold run
    rw [h1, h2]
    rfl
  · intro hok
    obtain ⟨keyBytes, exp, hv, hrun⟩ := run_success_inv env opts hok
    have hexp : exp = opts.ExpireTime := by
      have e1 := hv.2.2.2.1
      rw [resolveExp_explicit env opts h] at e1
      cases e1; rfl
    subst hexp
    exact ⟨keyBytes, hv.2.1, by rw [hrun]; rfl, emittedFields_filter_exp opts keyBytes _⟩

/-- C11 witness: `--exp=100` with the durations `bogus` and `-5s`, which the sample
parser rejects, gives the outcome of `--exp=100` alone, whose exp field is `exp=100`. -/
theorem explicit_expiration_overrides_duration_witness :
    run sampleEnv { aclOpts with Duration := str "bogus" } = run sampleEnv aclOpts
    ∧ run sampleEnv { aclOpts with Duration := str "-5s" } = run sampleEnv aclOpts
    ∧ ∃ keyBytes, hexDecodeString aclOpts.Key = .ok keyBytes
        ∧ (run sampleEnv aclOpts).printed
            = [stringsJoin aclOpts.FieldDelim (emittedFields aclOpts keyBytes 100)]
        ∧ (emittedFields aclOpts keyBytes 100).filter (fun f => fieldKey f = str "exp")
            = [str "exp=100"] :=
  have h := explicit_expiration_overrides_duration sampleEnv aclOpts (by decide)
  ⟨h.1 (str "bogus"), h.1 (str "-5s"), h.2 (by decide!)⟩

/-! ## C12: the expiration resolved from a duration -/

set_option maxRecDepth 100000 in
/-- C12 at its failing input: with `--start=1000 --duration=20000000.999999999s` the
duration has 20000000 whole seconds and `StartTime + 20000000` is within `int64`, yet
`int64(d.Seconds())` is 20000001 (the binary64 sum `20000000 + 0.999999999` rounds to
`20000001.0`), so the resolved expiration is 20001001 and `run` prints `exp=20001001`,
not `exp=20001000`. -/
theorem duration_seconds_round_up :
    roundingEnv.parseDuration roundingOpts.Duration = .ok 20000000999999999
    ∧ (20000000999999999 : Int) / 10 ^ 9 = 20000000
    ∧ roundingOpts.ExpireTime ≤ 0 ∧ 0 < roundingOpts.StartTime
    ∧ roundingOpts.StartTime + 20000000 ≤ maxInt64
    ∧ durationSeconds 20000000999999999 = 20000001
    ∧ resolveExp roundingEnv roundingOpts = .ok 20001001
    ∧ (run roundingEnv roundingOpts).err = none
    ∧ (run roundingEnv roundingOpts).printed
        = [str ("st=1000~exp=20001001~acl=/*~hmac="
            ++ "1d09a026043d0ee2e673b2342bdf86923f1d5c1dfbff22afe10f618f3c420c88")] := by
  refine ⟨rfl, by decide, by decide, by decide, by decide, by decide!, rfl, by decide!,
    by decide!⟩

/-! ## C13: independence of the clock -/

/-- C13: when ExpireTime is positive or StartTime is positive, the outcome of `run` (its
error, or the printed token) is the same for every reading of the wall clock. -/
theorem run_clock_independent (now1 now2 : Int) (parse : Bytes → Except String Int)
    (opts : options) (h : 0 < opts.ExpireTime ∨ 0 < opts.StartTime) :
    run ⟨now1, parse⟩ opts = run ⟨now2, parse⟩ opts := by
  apply run_congr_env
  by_cases he : 0 < opts.ExpireTime
  · rw [resolveExp_explicit _ opts he, resolveExp_explicit _ opts he]
  · have hs : 0 < opts.StartTime := by
      rcases h with h | h
      · exact absurd h he
      · exact h
    unfold resolveExp
    simp only [he, if_false, startPtr, hs, if_true]

/-- C13 witness: `--duration=300s --start=1000` at the clock readings 1700000000 and 5
prints the same token, with `exp=1300`. -/
theorem run_clock_independent_witness :
    run ⟨1700000000, durationEnv.parseDuration⟩ startDurationOpts
      = run ⟨5, durationEnv.parseDuration⟩ startDurationOpts
    ∧ (run ⟨5, durationEnv.parseDuration⟩ startDurationOpts).printed
        = [str ("st=1000~exp=1300~acl=/*~hmac="
            ++ "b65a0e97c142e241232d666ba6956befa21c5b15220fb0ec63c58432dd4bdf01")] :=
  ⟨run_clock_independent 1700000000 5 durationEnv.parseDuration startDurationOpts
      (Or.inr (by decide)),
    by decide!⟩

/-! ## C14: no escaping -/

/-- C14: for every string `s`, `maybeEscape s false` is `s`. -/
theorem maybeEscape_false (s : Bytes) : maybeEscape s false = s := rfl

/-! ## C15: the default digest -/

/-- C15: for every algorithm name other than `sha256`, `sha1` and `md5`, and every key
and data, `computeHMAC` returns what it returns for `sha256`. -/
theorem computeHMAC_unrecognized (a key data : Bytes) (h1 : a ≠ str "sha256")
    (h2 : a ≠ str "sha1") (h3 : a ≠ str "md5") :
    computeHMAC a key data = computeHMAC (str "sha256") key data := by
  have hn : newHash a = sha256Sum := by
    unfold newHash
    rw [if_neg h1, if_neg h2, if_neg h3]
  have hs : newHash (str "sha256") = sha256Sum := by
    unfold newHash
    rw [if_pos rfl]
  unfold computeHMAC
  rw [hn, hs]

/-- C15 witness: the name `sha512` gives the HMAC-SHA256 digest. -/
theorem computeHMAC_unrecognized_witness :
    computeHMAC (str "sha512") [0xde, 0xad, 0xbe, 0xef] (str "exp=100~acl=/*")
      = computeHMAC (str "sha256") [0xde, 0xad, 0xbe, 0xef] (str "exp=100~acl=/*")
    ∧ computeHMAC (str "sha512") [0xde, 0xad, 0xbe, 0xef] (str "exp=100~acl=/*")
      = str "b9a3aada5ce1251bddf0ad65fb92cf59dfd49cc346fa0a52a24dfa75a4f945e7" :=
  ⟨computeHMAC_unrecognized (str "sha512") [0xde, 0xad, 0xbe, 0xef] (str "exp=100~acl=/*")
      (by decide) (by decide) (by decide),
    by decide!⟩

/-! ## C16: the form of the digest -/

theorem hexEncodeToString_length (b : Bytes) :
    (hexEncodeToString b).length = 2 * b.length := by
  induction b with
  | nil => rfl
  | cons v rest ih =>
    simp only [hexEncodeToString, List.length_cons, ih]
    omega

theorem hextable_lower (k : Nat) (hk : k < 16) : IsLowerHexDigit (hextable.getD k 0) := by
  unfold IsLowerHexDigit
  interval_cases k <;> decide

theorem hexEncodeToString_digits (b : Bytes) (hb : IsBytes b) :
    ∀ c ∈ hexEncodeToString b, IsLowerHexDigit c := by
  induction b with
  | nil => intro c hc; simp [hexEncodeToString] at hc
  | cons v rest ih =>
    have hv : v < 256 := hb v (by simp)
    have hrest : IsBytes rest := fun x hx => hb x (by simp [hx])
    intro c hc
    simp only [hexEncodeToString, List.mem_cons] at hc
    rcases hc with hc | hc | hc
    · rw [hc]; exact hextable_lower _ (by omega)
    · rw [hc]; exact hextable_lower _ (by omega)
    · exact ih hrest c hc

theorem isBytes_append (a b : Bytes) (ha : IsBytes a) (hb : IsBytes b) : IsBytes (a ++ b) := by
  intro x hx
  rcases List.mem_append.mp hx with h | h
  · exact ha x h
  · exact hb x h

theorem be32Bytes_isBytes (w : Nat) : IsBytes (be32Bytes w) := by
  intro x hx
  simp only [be32Bytes, List.mem_cons, List.mem_singleton, List.not_mem_nil, or_false] at hx
  rcases hx with h | h | h | h <;> omega

theorem le32Bytes_isBytes (w : Nat) : IsBytes (le32Bytes w) := by
  intro x hx
  simp only [le32Bytes, List.mem_cons, List.mem_singleton, List.not_mem_nil, or_false] at hx
  rcases hx with h | h | h | h <;> omega

theorem sha256Sum_length (m : Bytes) : (sha256Sum m).length = 32 := by
  simp [sha256Sum, be32Bytes]

theorem sha1Sum_length (m : Bytes) : (sha1Sum m).length = 20 := by
  simp [sha1Sum, be32Bytes]

theorem md5Sum_length (m : Bytes) : (md5Sum m).length = 16 := by
  simp [md5Sum, le32Bytes]

theorem sha256Sum_isBytes (m : Bytes) : IsBytes (sha256Sum m) := by
  unfold sha256Sum
  simp only
  repeat first
    | exact be32Bytes_isBytes _
    | apply isBytes_append

theorem sha1Sum_isBytes (m : Bytes) : IsBytes (sha1Sum m) := by
  unfold sha1Sum
  simp only
  repeat first
    | exact be32Bytes_isBytes _
    | apply isBytes_append

theorem md5Sum_isBytes (m : Bytes) : IsBytes (md5Sum m) := by
  unfold md5Sum
  simp only
  repeat first
    | exact le32Bytes_isBytes _
    | apply isBytes_append

/-- The digest size, in bytes, of the algorithm that `computeHMAC` selects for a name. -/
theorem newHash_size (a m : Bytes) :
    IsBytes (newHash a m)
    ∧ (newHash a m).length
        = (if a = str "sha1" then 20 else if a = str "md5" then 16 else 32) := by
  unfold newHash
  by_cases h1 : a = str "sha256"
  · have n2 : a ≠ str "sha1" := by rw [h1]; decide
    have n3 : a ≠ str "md5" := by rw [h1]; decide
    rw [if_pos h1, if_neg n2, if_neg n3]
    exact ⟨sha256Sum_isBytes m, sha256Sum_length m⟩
  · rw [if_neg h1]
    by_cases h2 : a = str "sha1"
    · rw [if_pos h2, if_pos h2]
      exact ⟨sha1Sum_isBytes m, sha1Sum_length m⟩
    · rw [if_neg h2, if_neg h2]
      by_cases h3 : a = str "md5"
      · rw [if_pos h3, if_pos h3]
        exact ⟨md5Sum_isBytes m, md5Sum_length m⟩
      · rw [if_neg h3, if_neg h3]
        exact ⟨sha256Sum_isBytes m, sha256Sum_length m⟩

/-- C16: for every algorithm name, key and data, `computeHMAC` returns a string of the
characters `0`-`9` and `a`-`f` whose length is twice the digest size: 64 characters for
`sha256` and for any unrecognized name, 40 for `sha1`, 32 for `md5`. -/
theorem computeHMAC_hex_digest (a key data : Bytes) :
    (∀ c ∈ computeHMAC a key data, IsLowerHexDigit c)
    ∧ (hmacSum (newHash a) key data).length
        = (if a = str "sha1" then 20 else if a = str "md5" then 16 else 32)
    ∧ (computeHMAC a key data).length
        = (if a = str "sha1" then 40 else if a = str "md5" then 32 else 64)
    ∧ (computeHMAC (str "sha256") key data).length = 64
    ∧ (computeHMAC (str "sha1") key data).length = 40
    ∧ (computeHMAC (str "md5") key data).length = 32 := by
  have hsize : ∀ b : Bytes, IsBytes (hmacSum (newHash b) key data)
      ∧ (hmacSum (newHash b) key data).length
          = (if b = str "sha1" then 20 else if b = str "md5" then 16 else 32) := by
    intro b
    unfold hmacSum
    exact newHash_size b _
  have hlen : ∀ b : Bytes, (computeHMAC b key data).length
      = (if b = str "sha1" then 40 else if b = str "md5" then 32 else 64) := by
    intro b
    unfold computeHMAC
    rw [hexEncodeToString_length, (hsize b).2]
    split
    · rfl
    · split <;> rfl
  refine ⟨?_, (hsize a).2, hlen a, ?_, ?_, ?_⟩
  · unfold computeHMAC
    exact hexEncodeToString_digits _ (hsize a).1
  · rw [hlen]; decide
  · rw [hlen]; decide
  · rw [hlen]; decide

/-! ## C17: the ACL delimiter -/

/-- C17: two options values that differ only in ACLDelim give the same outcome of `run`
(the same error, or the same printed token). -/
theorem acl_delim_unused (env : Env) (opts : options) (delim : Bytes) :
    run env { opts with ACLDelim := delim } = run env opts := rfl

/-! ## C18: a negative start time -/

theorem run_alreadyExpired_inv (env : Env) (opts : options)
    (h : (run env opts).err = some .alreadyExpired) : 0 < opts.StartTime := by
  rcases run_err_cases env opts with h1 | h1 | ⟨e, he, h1⟩ | ⟨exp, _, _, h1⟩
    | ⟨exp, _, hs, _, _⟩ | h1
  · rw [h1] at h; cases h
  · rw [h1] at h; cases h
  · rw [h1] at h
    rcases resolveExp_error env opts e he with h3 | ⟨d, h3⟩
    · subst h3; cases h
    · subst h3; cases h
  · rw [h1] at h; cases h
  · exact hs
  · rw [h1] at h; cases h

/-- C18: with StartTime negative, the outcome of `run` is that of the same options
with StartTime 0: no field with key `st` is emitted, the already-expired error is not
returned, and a duration is added to the clock reading. -/
theorem negative_start_is_unset (env : Env) (opts : options) (h : opts.StartTime < 0) :
    run env opts = run env { opts with StartTime := 0 }
    ∧ (∀ keyBytes exp, str "st" ∉ (emittedFields opts keyBytes exp).map fieldKey)
    ∧ (run env opts).err ≠ some .alreadyExpired
    ∧ (∀ d, opts.ExpireTime ≤ 0 → opts.Duration ≠ []
        → env.parseDuration opts.Duration = .ok d → 0 < d
        → resolveExp env opts = .ok (wrapInt64 (env.now + durationSeconds d))) := by
  have hs : startPtr opts = none := startPtr_eq_none opts (by omega)
  have hs0 : startPtr { opts with StartTime := 0 } = none := rfl
  have hneg : ¬ 0 < opts.StartTime := by omega
  refine ⟨?_, ?_, ?_, ?_⟩
  · have h1 : resolveExp env { opts with StartTime := 0 } = resolveExp env opts := by
      unfold resolveExp
      rw [hs, hs0]
    have h2 : ∀ exp, tokenFields { opts with StartTime := 0 } exp = tokenFields opts exp := by
      intro exp
      unfold tokenFields
      rw [hs, hs0]
    symm
    unfold run
    rw [h1, hs, hs0]
    simp only [emittedFields, signingInput, hashFields, h2]
  · intro keyBytes exp
    rw [emittedFields_keys]
    by_cases h1 : opts.IP = [] <;> by_cases h3 : opts.URL = []
      <;> by_cases h4 : opts.SessionID = [] <;> by_cases h5 : opts.Payload = []
      <;> simp only [h1, hneg, h3, h4, h5, if_true, if_false, ne_eq, not_true_eq_false,
        not_false_eq_true]
      <;> decide
  · intro herr
    exact hneg (run_alreadyExpired_inv env opts herr)
  · intro d he hd hp hpos
    unfold resolveExp
    simp only [not_lt.mpr he, if_false, ne_eq, hd, not_false_eq_true, if_true, hp,
      not_le.mpr hpos, hs]

/-- C18 witness: `--start=-5 --exp=100` gives the outcome of `--exp=100`, whose token
is `exp=100~acl=/*~hmac=...` without an `st` field. -/
theorem negative_start_is_unset_witness :
    run sampleEnv negativeStartOpts = run sampleEnv { negativeStartOpts with StartTime := 0 }
    ∧ (run sampleEnv negativeStartOpts).printed
        = [str ("exp=100~acl=/*~hmac="
            ++ "b9a3aada5ce1251bddf0ad65fb92cf59dfd49cc346fa0a52a24dfa75a4f945e7")] :=
  ⟨(negative_start_is_unset sampleEnv negativeStartOpts (by decide)).1, by decide!⟩

/-! ## C19: payload and salt in the signing input -/

theorem tokenFields_payload (opts : options) (exp : Int) (hp : opts.Payload ≠ []) :
    tokenFields opts exp
      = tokenFields { opts with Payload := [] } exp
        ++ [str "data=" ++ maybeEscape opts.Payload opts.EscapeEarly] := by
  simp [tokenFields, startPtr, hp]

/-- C19: for a successful PathScope-mode run with EscapeEarly false and non-empty
Payload `p` and Salt `s`, the options with Payload `p ++ FieldDelim ++ "salt=" ++ s` and
an empty Salt also succeed, with the same signing input and the same `computeHMAC` call,
hence the same `hmac` field, while the two printed tokens differ. -/
theorem payload_salt_ambiguity (env : Env) (opts : options) (hacl : opts.ACL ≠ [])
    (hurl : opts.URL = []) (hesc : opts.EscapeEarly = false) (hp : opts.Payload ≠ [])
    (hs : opts.Salt ≠ []) (hok : (run env opts).err = none) :
    (run env (saltInPayload opts)).err = none
    ∧ signingInputs (run env (saltInPayload opts)) = signingInputs (run env opts)
    ∧ (run env (saltInPayload opts)).hmacCalls = (run env opts).hmacCalls
    ∧ (∃ keyBytes exp digest,
        (run env opts).printed
          = [stringsJoin opts.FieldDelim (tokenFields opts exp) ++ opts.FieldDelim
              ++ (str "hmac=" ++ digest)]
        ∧ (run env (saltInPayload opts)).printed
          = [stringsJoin opts.FieldDelim (tokenFields (saltInPayload opts) exp)
              ++ opts.FieldDelim ++ (str "hmac=" ++ digest)]
        ∧ digest = computeHMAC opts.Algorithm keyBytes (signingInput opts exp))
    ∧ (run env (saltInPayload opts)).printed ≠ (run env opts).printed := by
  have _hmode : opts.ACL ≠ [] ∧ opts.URL = [] := ⟨hacl, hurl⟩
  obtain ⟨keyBytes, exp, hv, hrun⟩ := run_success_inv env opts hok
  have hv2 : Valid env (saltInPayload opts) keyBytes exp := hv
  have hrun2 := run_of_valid env (saltInPayload opts) keyBytes exp hv2
  have hp2 : (saltInPayload opts).Payload ≠ [] := by
    simp [saltInPayload, hp]
  have hpre : tokenFields { opts with Payload := [] } exp ≠ [] := tokenFields_ne_nil _ exp
  have hT1 := tokenFields_payload opts exp hp
  have hT2 : tokenFields (saltInPayload opts) exp
      = tokenFields { opts with Payload := [] } exp
        ++ [str "data=" ++ (opts.Payload ++ opts.FieldDelim ++ (str "salt=" ++ opts.Salt))] := by
    have := tokenFields_payload (saltInPayload opts) exp hp2
    rw [this]
    simp [saltInPayload, hesc, maybeEscape]
    rfl
  have hJ : stringsJoin opts.FieldDelim (tokenFields (saltInPayload opts) exp)
      = stringsJoin opts.FieldDelim (tokenFields opts exp)
        ++ (opts.FieldDelim ++ (str "salt=" ++ opts.Salt)) := by
    rw [hT1, hT2, stringsJoin_append_singleton _ _ _ hpre,
      stringsJoin_append_singleton _ _ _ hpre]
    simp [hesc, maybeEscape, List.append_assoc]
  have hsi : signingInput (saltInPayload opts) exp = signingInput opts exp := by
    rw [signingInput_eq, signingInput_eq]
    have u1 : urlPart opts = [] := by simp [urlPart, hurl]
    have u2 : urlPart (saltInPayload opts) = [] := by simp [urlPart, saltInPayload, hurl]
    have s1 : saltPart opts = opts.FieldDelim ++ (str "salt=" ++ opts.Salt) := by
      simp [saltPart, hs]
    have s2 : saltPart (saltInPayload opts) = [] := by simp [saltPart, saltInPayload]
    rw [u1, u2, s1, s2]
    show stringsJoin opts.FieldDelim (tokenFields (saltInPayload opts) exp) ++ [] ++ [] = _
    rw [hJ]
    simp
  have hcalls : (run env (saltInPayload opts)).hmacCalls = (run env opts).hmacCalls := by
    rw [hrun, hrun2]
    show [((saltInPayload opts).Algorithm, keyBytes, signingInput (saltInPayload opts) exp)]
      = [(opts.Algorithm, keyBytes, signingInput opts exp)]
    rw [hsi]
    rfl
  have hpr1 : (run env opts).printed
      = [stringsJoin opts.FieldDelim (tokenFields opts exp) ++ opts.FieldDelim
          ++ (str "hmac=" ++ computeHMAC opts.Algorithm keyBytes (signingInput opts exp))] := by
    rw [hrun]
    show [stringsJoin opts.FieldDelim (emittedFields opts keyBytes exp)] = _
    rw [emitted_eq]
  have hpr2 : (run env (saltInPayload opts)).printed
      = [stringsJoin opts.FieldDelim (tokenFields (saltInPayload opts) exp)
          ++ opts.FieldDelim
          ++ (str "hmac=" ++ computeHMAC opts.Algorithm keyBytes (signingInput opts exp))] := by
    rw [hrun2]
    show [stringsJoin (saltInPayload opts).FieldDelim
      (emittedFields (saltInPayload opts) keyBytes exp)] = _
    rw [emitted_eq, hsi]
    rfl
  refine ⟨by rw [hrun2]; rfl, ?_, hcalls, ⟨keyBytes, exp, _, hpr1, hpr2, rfl⟩, ?_⟩
  · unfold signingInputs
    rw [hcalls]
  · rw [hpr1, hpr2, hJ]
    intro heq
    have h1 := (List.cons_eq_cons.mp heq).1
    have h2 := congrArg List.length h1
    have h5 : (str "salt=").length = 5 := rfl
    simp only [List.length_append, h5] at h2
    omega

/-- C19 witness: `--data=x --salt=xyz` and `--data=x~salt=xyz` sign the same string
`exp=100~acl=/*~data=x~salt=xyz` and print different tokens. -/
theorem payload_salt_ambiguity_witness :
    (run sampleEnv (saltInPayload payloadSaltOpts)).err = none
    ∧ signingInputs (run sampleEnv (saltInPayload payloadSaltOpts))
        = signingInputs (run sampleEnv payloadSaltOpts)
    ∧ signingInputs (run sampleEnv payloadSaltOpts) = [str "exp=100~acl=/*~data=x~salt=xyz"]
    ∧ (saltInPayload payloadSaltOpts).Payload = str "x~salt=xyz"
    ∧ (run sampleEnv (saltInPayload payloadSaltOpts)).printed
        ≠ (run sampleEnv payloadSaltOpts).printed :=
  have h := payload_salt_ambiguity sampleEnv payloadSaltOpts (by decide) rfl rfl (by decide)
    (by decide) (by decide!)
  ⟨h.1, h.2.1, by decide!, by decide, h.2.2.2.2⟩

/-! ## C20: the non-positive-expiry check -/

theorem durationSeconds_nonneg (d : Int) (h : 0 ≤ d) : 0 ≤ durationSeconds d := by
  unfold durationSeconds
  rw [if_pos h]
  exact Int.ofNat_nonneg _

theorem resolveExp_ok_inv (env : Env) (opts : options) (exp : Int)
    (h : resolveExp env opts = .ok exp) :
    (0 < opts.ExpireTime ∧ exp = opts.ExpireTime)
    ∨ (opts.ExpireTime ≤ 0 ∧ opts.Duration ≠ []
        ∧ ∃ d, env.parseDuration opts.Duration = .ok d ∧ 0 < d
          ∧ exp = wrapInt64 ((if 0 < opts.StartTime then opts.StartTime else env.now)
              + durationSeconds d)) := by
  by_cases he : 0 < opts.ExpireTime
  · left
    rw [resolveExp_explicit env opts he] at h
    cases h
    exact ⟨he, rfl⟩
  · right
    unfold resolveExp at h
    simp only [he, if_false] at h
    by_cases hd : opts.Duration = []
    · simp only [hd, ne_eq, not_true_eq_false, if_false] at h
      cases h
    · simp only [ne_eq, hd, not_false_eq_true, if_true] at h
      refine ⟨not_lt.mp he, hd, ?_⟩
      cases hp : env.parseDuration opts.Duration with
      | error e => rw [hp] at h; cases h
      | ok d =>
        rw [hp] at h
        by_cases hpos : 0 < d
        · refine ⟨d, rfl, hpos, ?_⟩
          simp only [not_le.mpr hpos, if_false] at h
          by_cases hs : 0 < opts.StartTime
          · simp only [startPtr, hs, if_true] at h
            cases h
            rw [if_pos hs]
          · simp only [startPtr, hs, if_false] at h
            cases h
            rw [if_neg hs]
        · simp only [not_lt.mp hpos, if_true] at h
          cases h

theorem wrapInt64_nonpos_overflow (x : Int) (hx : 0 < x) (h : wrapInt64 x ≤ 0) :
    maxInt64 < x := by
  unfold wrapInt64 at h
  unfold maxInt64
  omega

set_option maxRecDepth 100000 in
/-- C20, as stated, fails in its last sentence: at the positive clock reading 1700000000
the explicit ExpireTime -1, with Duration `300s` and StartTime 9223372036854775807, does
produce the error "--exp must be > 0": ExpireTime -1 counts as absent, the duration is
added to the start time, and the sum wraps to a negative number. -/
theorem non_positive_expiry_counterexample :
    0 < durationEnv.now
    ∧ negativeExpOverflowOpts.ExpireTime = -1
    ∧ negativeExpOverflowOpts.ExpireTime ≤ 0
    ∧ negativeExpOverflowOpts.Duration = str "300s"
    ∧ negativeExpOverflowOpts.StartTime = 9223372036854775807
    ∧ (run durationEnv negativeExpOverflowOpts).err = some .nonPositiveExpiry
    ∧ RunError.nonPositiveExpiry.message = "--exp must be > 0" := by
  refine ⟨by decide, rfl, by decide, rfl, rfl, by decide!, rfl⟩

/-- C20, amended: at a positive clock reading, if `run` returns the error
"--exp must be > 0" then ExpireTime is not positive, Duration parsed to a positive
duration, and the sum of the base (StartTime if positive, else the clock) and the
duration's seconds exceeds the largest `int64`, so that the addition wrapped; with
ExpireTime not positive and an empty Duration the error is never this one, and for a
valid mode and key it is the missing-expiry error
"either --exp or --duration is required". -/
theorem non_positive_expiry_only_by_overflow (env : Env) (opts : options)
    (hnow : 0 < env.now) :
    ((run env opts).err = some .nonPositiveExpiry
      → opts.ExpireTime ≤ 0
        ∧ ∃ d, env.parseDuration opts.Duration = .ok d ∧ 0 < d
          ∧ maxInt64 < (if 0 < opts.StartTime then opts.StartTime else env.now)
              + durationSeconds d
          ∧ resolveExp env opts
            = .ok (wrapInt64 ((if 0 < opts.StartTime then opts.StartTime else env.now)
                + durationSeconds d)))
    ∧ (opts.ExpireTime ≤ 0 → opts.Duration = []
      → (run env opts).err ≠ some .nonPositiveExpiry)
    ∧ (opts.ExpireTime ≤ 0 → opts.Duration = []
      → ((opts.ACL ≠ [] ∧ opts.URL = []) ∨ (opts.ACL = [] ∧ opts.URL ≠ []))
      → (∃ keyBytes, hexDecodeString opts.Key = .ok keyBytes ∧ 1 ≤ keyBytes.length)
      → (run env opts).err = some .missingExpiry)
    ∧ RunError.nonPositiveExpiry.message = "--exp must be > 0"
    ∧ RunError.missingExpiry.message = "either --exp or --duration is required" := by
  have hmain : (run env opts).err = some .nonPositiveExpiry
      → opts.ExpireTime ≤ 0
        ∧ opts.Duration ≠ []
        ∧ ∃ d, env.parseDuration opts.Duration = .ok d ∧ 0 < d
          ∧ maxInt64 < (if 0 < opts.StartTime then opts.StartTime else env.now)
              + durationSeconds d
          ∧ resolveExp env opts
            = .ok (wrapInt64 ((if 0 < opts.StartTime then opts.StartTime else env.now)
                + durationSeconds d)) := by
    intro h
    rcases run_err_cases env opts with h1 | h1 | ⟨e, he, h1⟩ | ⟨exp, hexp, hle, _⟩
      | ⟨exp, _, _, _, h1⟩ | h1
    · rw [h1] at h; cases h
    · rw [h1] at h; cases h
    · rw [h1] at h
      rcases resolveExp_error env opts e he with h3 | ⟨d, h3⟩
      · subst h3; cases h
      · subst h3; cases h
    · rcases resolveExp_ok_inv env opts exp hexp with ⟨hpos, heq⟩ | ⟨hnp, hd, d, hp, hdpos, heq⟩
      · omega
      · refine ⟨hnp, hd, d, hp, hdpos, ?_, by rw [hexp, heq]⟩
        have hsec := durationSeconds_nonneg d (le_of_lt hdpos)
        have hbase : 0 < (if 0 < opts.StartTime then opts.StartTime else env.now) := by
          split
          · assumption
          · exact hnow
        apply wrapInt64_nonpos_overflow _ (by omega)
        rw [← heq]
        exact hle
    · rw [h1] at h; cases h
    · rw [h1] at h; cases h
  refine ⟨?_, ?_, ?_, rfl, rfl⟩
  · intro h
    obtain ⟨h1, _, h3⟩ := hmain h
    exact ⟨h1, h3⟩
  · intro _ hd h
    exact (hmain h).2.1 hd
  · rintro he hd hmode ⟨keyBytes, hkey, hlen⟩
    have hres : resolveExp env opts = .error .missingExpiry := by
      unfold resolveExp
      simp only [not_lt.mpr he, if_false, hd, ne_eq, not_true_eq_false]
    rw [run_after_key env opts keyBytes hmode hkey hlen, hres]
    rfl

set_option maxRecDepth 100000 in
/-- C20 witness: at clock reading 1700000000, `--start=9223372036854775807
--duration=300s` makes the addition wrap and `run` returns "--exp must be > 0";
`--exp=-1` without a duration returns the missing-expiry error. -/
theorem non_positive_expiry_only_by_overflow_witness :
    (run durationEnv overflowOpts).err = some .nonPositiveExpiry
    ∧ (overflowOpts.ExpireTime ≤ 0
      ∧ ∃ d, durationEnv.parseDuration overflowOpts.Duration = .ok d ∧ 0 < d
        ∧ maxInt64 < (if 0 < overflowOpts.StartTime then overflowOpts.StartTime
              else durationEnv.now) + durationSeconds d
        ∧ resolveExp durationEnv overflowOpts
          = .ok (wrapInt64 ((if 0 < overflowOpts.StartTime then overflowOpts.StartTime
              else durationEnv.now) + durationSeconds d)))
    ∧ (run sampleEnv negativeExpOpts).err = some .missingExpiry :=
  have herr : (run durationEnv overflowOpts).err = some .nonPositiveExpiry := by decide!
  ⟨herr,
    (non_positive_expiry_only_by_overflow durationEnv overflowOpts (by decide)).1 herr,
    (non_positive_expiry_only_by_overflow sampleEnv negativeExpOpts (by decide)).2.2.1
      (by decide) rfl (Or.inl ⟨by decide, rfl⟩) ⟨[0xde, 0xad, 0xbe, 0xef], rfl, by decide⟩⟩

end EdgeAuth
